import Mathlib

/-!
A shallow embedding of the flag library in `src/flag.ts`: the typed values
(`BooleanValue`, `StringValue`, `NumberValue`, `StringListValue`), the `Flag`
wrapper, the `FlagSet` registry and its token-consumption parser.

Strings are modelled as `List Char`.  JavaScript numbers are modelled exactly:
every finite double is an exact decimal rational, so a number is a normalized
pair `m / 10^e` (or an infinity); `NaN` is never stored, because `NumberValue.set`
rejects it, so it needs no representation.  `String(number)` is modelled by the
plain decimal rendering, which denotes the same numeric value as JavaScript's
shortest round-trip rendering (JavaScript switches to exponent notation for
extreme magnitudes; only the text differs, never the parsed-back value).
Character lowering is ASCII (`Char.toLower`), which agrees with JavaScript's
`toLowerCase` on every string compared against "true"/"false"/"1"/"0".
-/

instance instDecEqExcept {ε α : Type} [DecidableEq ε] [DecidableEq α] :
    DecidableEq (Except ε α) := fun x y =>
  match x, y with
  | .ok a, .ok b =>
      if h : a = b then .isTrue (by rw [h]) else .isFalse (by simp [h])
  | .error a, .error b =>
      if h : a = b then .isTrue (by rw [h]) else .isFalse (by simp [h])
  | .ok _, .error _ => .isFalse (by simp)
  | .error _, .ok _ => .isFalse (by simp)

/-- Whether an `Except` is a success (`.ok`). -/
def exceptIsOk {ε α : Type} (x : Except ε α) : Bool :=
  match x with
  | .ok _ => true
  | .error _ => false

/-- Decimal digit characters. -/
def isDigitChar (c : Char) : Bool :=
  '0' ≤ c ∧ c ≤ '9'

/-- Numeric value of a digit character. -/
def digitVal (c : Char) : Nat :=
  c.toNat - 48

/-- The digit character for `n < 10`. -/
def digitChar (n : Nat) : Char :=
  Char.ofNat (48 + n)

/-- Decimal digits of a natural number, most significant first; fuel-driven so
that it reduces in the kernel. -/
def natReprAux : Nat → Nat → List Char
  | 0, _ => []
  | fuel + 1, n =>
      if n < 10 then [digitChar n]
      else natReprAux fuel (n / 10) ++ [digitChar (n % 10)]

/-- Decimal rendering of a natural number (for example `255 ↦ "255"`). -/
def natRepr (n : Nat) : List Char :=
  natReprAux (n + 1) n

/-- Value of a list of digit characters read in base 10. -/
def digitsToNat (ds : List Char) : Nat :=
  ds.foldl (fun a c => 10 * a + digitVal c) 0

/-- JavaScript's `String.prototype.startsWith` on character lists. -/
def listStartsWith : List Char → List Char → Bool
  | _, [] => true
  | [], _ :: _ => false
  | c :: cs, d :: ds => c = d ∧ listStartsWith cs ds

/-- Split at the first `'='`, as `indexOf("=")` plus the two `substring` calls
do: the part before the first `'='`, and (when a `'='` occurs) everything
after it. -/
def splitEq : List Char → List Char × Option (List Char)
  | [] => ([], none)
  | c :: r =>
      if c = '=' then ([], some r)
      else
        let p := splitEq r
        (c :: p.1, p.2)

/-- JavaScript `StrWhiteSpace` characters (the ones relevant to plain tokens). -/
def isWsChar (c : Char) : Bool :=
  c = ' ' ∨ c = '\t' ∨ c = '\n' ∨ c = '\r' ∨ c = '\x0b' ∨ c = '\x0c'

/-- A JavaScript number that `NumberValue` can hold: an exact decimal
`m / 10 ^ e` in normalized form (`e = 0`, or `m` not divisible by 10), or an
infinity.  `NaN` needs no constructor: `set` throws on it and the embedding's
factories take a `JsNum` default. -/
inductive JsNum : Type
  | fin (m : Int) (e : Nat)
  | inf
  | negInf
deriving DecidableEq, Repr

/-- Normalization step for decimal pairs: strip factors of ten from the
mantissa into the exponent. -/
def normDecAux : Nat → Int → Nat → Int × Nat
  | 0, m, e => (m, e)
  | fuel + 1, m, e =>
      if e ≠ 0 ∧ m % 10 = 0 then normDecAux fuel (m / 10) (e - 1) else (m, e)

/-- Normalize a decimal pair `m / 10 ^ e`. -/
def normDec (m : Int) (e : Nat) : Int × Nat :=
  normDecAux e m e

/-- Build the normalized finite number `sgn * (ip + fp / 10 ^ |fp|) * 10 ^ exp`
from the pieces parseFloat extracted. -/
def mkJsNum (neg : Bool) (ip fp : List Char) (exp : Int) : JsNum :=
  let m0 : Nat := digitsToNat ip * 10 ^ fp.length + digitsToNat fp
  let e0 : Nat := fp.length
  let me : Int × Nat :=
    match exp with
    | .ofNat k => normDec (Int.ofNat (m0 * 10 ^ k)) e0
    | .negSucc k => normDec (Int.ofNat m0) (e0 + (k + 1))
  .fin (if neg then -me.1 else me.1) me.2

/-- Strip an optional leading sign, returning whether it was a minus and the
rest. -/
def stripSign (s : List Char) : Bool × List Char :=
  match s with
  | [] => (false, s)
  | c :: r =>
      if c = '+' then (false, r)
      else if c = '-' then (true, r)
      else (false, s)

/-- After the integer digits: an optional `.`-led fraction, returning the
fraction digits and the remainder. -/
def stripFrac (r1 : List Char) : List Char × List Char :=
  match r1 with
  | [] => ([], r1)
  | c :: r =>
      if c = '.' then (r.takeWhile isDigitChar, r.dropWhile isDigitChar)
      else ([], r1)

/-- An optional exponent part (`e`/`E`, optional sign, digits); an exponent
marker without digits contributes nothing, as `parseFloat` backtracks. -/
def stripExp (r2 : List Char) : Int :=
  match r2 with
  | [] => 0
  | e :: r3 =>
      if e = 'e' ∨ e = 'E' then
        let es := stripSign r3
        let ed := es.2.takeWhile isDigitChar
        if ed = [] then 0
        else if es.1 then -(Int.ofNat (digitsToNat ed))
        else Int.ofNat (digitsToNat ed)
      else 0

/-- The part of `parseFloat` after whitespace and sign stripping. -/
def parseFloatBody (neg : Bool) (s2 : List Char) : Option JsNum :=
  if listStartsWith s2 ("Infinity".toList) then
    some (if neg then .negInf else .inf)
  else
    let ip := s2.takeWhile isDigitChar
    let r1 := s2.dropWhile isDigitChar
    let fr := stripFrac r1
    if ip = [] ∧ fr.1 = [] then none
    else some (mkJsNum neg ip fr.1 (stripExp fr.2))

/-- JavaScript's `parseFloat`: skip leading whitespace, optional sign, then the
longest prefix that is `Infinity` or a decimal literal (digits, optional
fraction, optional exponent); `none` models the `NaN` result. -/
def parseFloat (s : List Char) : Option JsNum :=
  let s1 := s.dropWhile isWsChar
  let sgn := stripSign s1
  parseFloatBody sgn.1 sgn.2

/-- Decimal rendering of the nonnegative value `n / 10 ^ e`: the digits of `n`,
left-padded with zeros to at least `e + 1` characters, with a decimal point
inserted `e` places from the right (omitted when `e = 0`). -/
def renderDecNN (n : Nat) (e : Nat) : List Char :=
  let ds := natRepr n
  if e = 0 then ds
  else
    let padded := List.replicate (e + 1 - ds.length) '0' ++ ds
    padded.take (padded.length - e) ++ '.' :: padded.drop (padded.length - e)

/-- JavaScript's `String(number)`, at the value level: plain decimal rendering
(sign, digits, decimal point), `"Infinity"` / `"-Infinity"` for infinities. -/
def jsNumToString : JsNum → List Char
  | .fin m e => if m < 0 then '-' :: renderDecNN (-m).toNat e else renderDecNN m.toNat e
  | .inf => "Infinity".toList
  | .negInf => "-Infinity".toList

/-- The four typed value holders (`BooleanValue`, `StringValue`, `NumberValue`,
`StringListValue`); `strList` keeps both the current sequence and the frozen
`initialDefault` copied at construction. -/
inductive FlagVal : Type
  | bool (b : Bool)
  | str (s : List Char)
  | num (v : JsNum)
  | strList (cur : List (List Char)) (dflt : List (List Char))
deriving DecidableEq, Repr

/-- A parse-time error: `FlagParseError` (with its computed `message`, its
`flagName` and its `offendingValue` fields) or `HelpRequestError`. -/
inductive PError : Type
  | parseErr (message : List Char) (flagName : Option (List Char))
      (offendingValue : Option (List Char))
  | helpRequest
deriving DecidableEq, Repr

/-- The `message` a `FlagParseError` computes in its constructor:
`Flag '<name>': <message>` when a flag name is known, plus
`(value: "<value>")` when an offending value is known. -/
def composeMsg (message : List Char) (flagName : Option (List Char))
    (offendingValue : Option (List Char)) : List Char :=
  let base :=
    match flagName with
    | some n => "Flag \x27".toList ++ n ++ "\x27: ".toList ++ message
    | none => message
  match offendingValue with
  | some v => base ++ " (value: \"".toList ++ v ++ "\")".toList
  | none => base

/-- Construct a `FlagParseError`, computing its `message` field. -/
def mkParseErr (message : List Char) (flagName : Option (List Char))
    (offendingValue : Option (List Char)) : PError :=
  .parseErr (composeMsg message flagName offendingValue) flagName offendingValue

/-- The `flagName` field of an error (`none` for a help request). -/
def errFlagName : PError → Option (List Char)
  | .parseErr _ fn _ => fn
  | .helpRequest => none

/-- The `offendingValue` field of an error (`none` for a help request). -/
def errOffendingValue : PError → Option (List Char)
  | .parseErr _ _ ov => ov
  | .helpRequest => none

/-- ASCII lowercase of a string, modelling `toLowerCase` on the inputs the
boolean setter compares against. -/
def lowerList (s : List Char) : List Char :=
  s.map Char.toLower

/-- `IFlag.set` for each variant: boolean accepts case-insensitive
`true/1/false/0`; string stores verbatim; number runs `parseFloat` and rejects
`NaN`; string-list appends. -/
def valueSet (v : FlagVal) (stringValue : List Char) : Except PError FlagVal :=
  match v with
  | .bool _ =>
      let lower := lowerList stringValue
      if lower = "true".toList ∨ lower = "1".toList then .ok (.bool true)
      else if lower = "false".toList ∨ lower = "0".toList then .ok (.bool false)
      else .error (mkParseErr ("invalid boolean value".toList) none (some stringValue))
  | .str _ => .ok (.str stringValue)
  | .num _ =>
      match parseFloat stringValue with
      | none => .error (mkParseErr ("invalid number".toList) none (some stringValue))
      | some n => .ok (.num n)
  | .strList cur dflt => .ok (.strList (cur ++ [stringValue]) dflt)

/-- `IFlag.asString` for each variant. -/
def valueAsString : FlagVal → List Char
  | .bool b => if b then "true".toList else "false".toList
  | .str s => s
  | .num v => jsNumToString v
  | .strList cur dflt =>
      if cur = [] ∧ dflt = [] then [] else List.intercalate (", ".toList) cur

/-- `IFlag.typeName` for each variant. -/
def typeNameOf : FlagVal → List Char
  | .bool _ => "boolean".toList
  | .str _ => "string".toList
  | .num _ => "number".toList
  | .strList _ _ => "string[]".toList

/-- `IFlag.expectsExplicitValue`: false only for booleans. -/
def valExpectsExplicit : FlagVal → Bool
  | .bool _ => false
  | _ => true

/-- `IFlag._clearAndReset`: boolean/string/number call `set` on the saved
default string only when that string is truthy (non-empty); string-list
ignores it and restores the frozen initial default. -/
def clearAndReset (v : FlagVal) (stringValue : List Char) : Except PError FlagVal :=
  match v with
  | .bool _ => if stringValue = [] then .ok v else valueSet v stringValue
  | .str _ => if stringValue = [] then .ok v else valueSet v stringValue
  | .num _ => if stringValue = [] then .ok v else valueSet v stringValue
  | .strList _ dflt => .ok (.strList dflt dflt)

/-- The `Flag` wrapper: name, description, validated alias, value holder, the
default string captured at construction, and the `isSet` mark. -/
structure FlagM : Type where
  name : List Char
  description : List Char
  aliasName : Option (List Char)
  value : FlagVal
  initialDefaultValueString : List Char
  isSet : Bool
deriving DecidableEq, Repr

/-- The `Flag` constructor: a truthy (non-empty) alias must be one character
and neither `-` nor `=`; `initialDefaultValueString` is captured from the
value holder's `asString()`. -/
def mkFlag (name description : List Char) (aliasOpt : Option (List Char))
    (valueHolder : FlagVal) : Except (List Char) FlagM :=
  match aliasOpt with
  | some a =>
      if a = [] then
        .ok ⟨name, description, none, valueHolder, valueAsString valueHolder, false⟩
      else if a.length ≠ 1 ∨ a = "-".toList ∨ a = "=".toList then
        .error ("Alias must be a single character and not - or =".toList)
      else
        .ok ⟨name, description, some a, valueHolder, valueAsString valueHolder, false⟩
  | none =>
      .ok ⟨name, description, none, valueHolder, valueAsString valueHolder, false⟩

/-- `Flag._setValueFromString`: delegate to the holder's `set`, then mark
`isSet` (the holder either fully applies or throws before assigning). -/
def setValueFromString (f : FlagM) (stringValue : List Char) : Except PError FlagM :=
  match valueSet f.value stringValue with
  | .error e => .error e
  | .ok v => .ok { f with value := v, isSet := true }

/-- `Flag._setImplicitly`: booleans are set to `"true"`; any other type throws
a `FlagParseError` naming the flag. -/
def setImplicitly (f : FlagM) : Except PError FlagM :=
  if typeNameOf f.value = "boolean".toList then
    match valueSet f.value ("true".toList) with
    | .error e => .error e
    | .ok v => .ok { f with value := v, isSet := true }
  else
    .error (mkParseErr ("cannot be set implicitly without a value".toList) (some f.name) none)

/-- `Flag._resetToDefault`: `_clearAndReset` on the captured default string,
then clear `isSet`. -/
def resetToDefault (f : FlagM) : Except PError FlagM :=
  match clearAndReset f.value f.initialDefaultValueString with
  | .error e => .error e
  | .ok v => .ok { f with value := v, isSet := false }

/-- `Flag.expectsExplicitValue`. -/
def flagExpectsExplicit (f : FlagM) : Bool :=
  valExpectsExplicit f.value

/-- The `FlagSet` registry: the owning name-to-flag map, the alias-to-name
back-reference map (both insertion-ordered association lists, with uniqueness
enforced at registration), the `isParsed` mark and the in-flight token queue. -/
structure FlagSetM : Type where
  flags : List (List Char × FlagM)
  aliases : List (List Char × List Char)
  isParsed : Bool
  processingArgs : List (List Char)
deriving DecidableEq, Repr

/-- A freshly constructed registry. -/
def emptyFS : FlagSetM :=
  ⟨[], [], false, []⟩

/-- `FlagSet._registerFlag`: the name must collide with no existing name or
alias key; a present alias must collide with no name, alias key or alias
target. -/
def registerFlag (S : FlagSetM) (f : FlagM) : Except (List Char) FlagSetM :=
  if (List.lookup f.name S.flags).isSome ∨ (List.lookup f.name S.aliases).isSome then
    .error ("Flag name or alias is already registered".toList)
  else
    match f.aliasName with
    | some a =>
        if (List.lookup a S.flags).isSome ∨ (List.lookup a S.aliases).isSome
            ∨ (S.aliases.map Prod.snd).contains a then
          .error ("Alias is already registered as a name or alias".toList)
        else
          .ok { S with
                aliases := S.aliases ++ [(a, f.name)],
                flags := S.flags ++ [(f.name, f)] }
    | none => .ok { S with flags := S.flags ++ [(f.name, f)] }

/-- `FlagSet.bool`: default `false` when absent. -/
def fsBool (S : FlagSetM) (name description : List Char) (aliasOpt : Option (List Char))
    (defaultValue : Option Bool) : Except (List Char) FlagSetM :=
  match mkFlag name description aliasOpt (.bool (defaultValue.getD false)) with
  | .error e => .error e
  | .ok f => registerFlag S f

/-- `FlagSet.string`: default `""` when absent. -/
def fsString (S : FlagSetM) (name description : List Char) (aliasOpt : Option (List Char))
    (defaultValue : Option (List Char)) : Except (List Char) FlagSetM :=
  match mkFlag name description aliasOpt (.str (defaultValue.getD [])) with
  | .error e => .error e
  | .ok f => registerFlag S f

/-- `FlagSet.number`: default `0` when absent. -/
def fsNumber (S : FlagSetM) (name description : List Char) (aliasOpt : Option (List Char))
    (defaultValue : Option JsNum) : Except (List Char) FlagSetM :=
  match mkFlag name description aliasOpt (.num (defaultValue.getD (.fin 0 0))) with
  | .error e => .error e
  | .ok f => registerFlag S f

/-- `FlagSet.stringList`: default `[]` when absent; the holder starts with the
current sequence equal to the frozen default. -/
def fsStringList (S : FlagSetM) (name description : List Char) (aliasOpt : Option (List Char))
    (defaultValue : Option (List (List Char))) : Except (List Char) FlagSetM :=
  match mkFlag name description aliasOpt
      (.strList (defaultValue.getD []) (defaultValue.getD [])) with
  | .error e => .error e
  | .ok f => registerFlag S f

/-- `flags.forEach(flag => flag._resetToDefault())`: reset each flag in
insertion order; the first throw leaves that flag and all later ones
untouched. -/
def resetFlags : List (List Char × FlagM) → Option PError × List (List Char × FlagM)
  | [] => (none, [])
  | (n, f) :: rest =>
      match resetToDefault f with
      | .error e => (some e, (n, f) :: rest)
      | .ok f1 =>
          let p := resetFlags rest
          (p.1, (n, f1) :: p.2)

/-- `FlagSet.reset`: reset every flag; only when no reset throws are
`isParsed` and the token queue cleared. -/
def resetFS (S : FlagSetM) : Option PError × FlagSetM :=
  let p := resetFlags S.flags
  match p.1 with
  | some e => (some e, { S with flags := p.2 })
  | none => (none, { S with flags := p.2, isParsed := false, processingArgs := [] })

/-- Identifier resolution: alias lookup first, falling back to the identifier
itself; JavaScript's `||` also falls back when the looked-up name is the empty
(falsy) string. -/
def resolveName (al : List (List Char × List Char)) (flagIdentifier : List Char) : List Char :=
  match List.lookup flagIdentifier al with
  | some v => if v = [] then flagIdentifier else v
  | none => flagIdentifier

/-- Replace a flag under its map key (the map itself is never re-keyed; the
source mutates the shared `Flag` object in place). -/
def updateFlag (fl : List (List Char × FlagM)) (key : List Char) (f : FlagM) :
    List (List Char × FlagM) :=
  fl.map fun p => if p.1 = key then (p.1, f) else p

/-- Outcome of `_parseOne`: terminator, non-flag, or a processed flag together
with the updated flag map and whether the following token was consumed as the
value. -/
inductive ParseOneOut : Type
  | terminator
  | notAFlag
  | processed (fl : List (List Char × FlagM)) (tookNext : Bool)
deriving DecidableEq, Repr

/-- The catch-block rewrap in `_parseOne`: a `FlagParseError` is rebuilt from
its full message with this flag's name attached and `offendingValue ??
valueFromEqualsSyntax`; any other error's message is wrapped the same way. -/
def wrapFlagError (f : FlagM) (valueFromEquals : Option (List Char)) (e : PError) : PError :=
  match e with
  | .parseErr m _ ov =>
      mkParseErr m (some f.name)
        (match ov with
         | some x => some x
         | none => valueFromEquals)
  | .helpRequest =>
      mkParseErr ("Help requested by user".toList) (some f.name) valueFromEquals

/-- The stage of `_parseOne` that runs on the stripped identifier and inline
value: reject malformed identifiers (naming the raw token), intercept
`h`/`help`, resolve through aliases then names, then acquire and apply the
value. -/
def parseOneResolved (al : List (List Char × List Char)) (fl : List (List Char × FlagM))
    (arg flagIdentifier : List Char) (valueFromEquals : Option (List Char))
    (peek : Option (List Char)) : Except PError ParseOneOut :=
  if flagIdentifier = [] ∨ listStartsWith flagIdentifier ("-".toList) then
    .error (mkParseErr ("Invalid flag identifier syntax".toList) (some arg) none)
  else if flagIdentifier = "h".toList ∨ flagIdentifier = "help".toList then
    .error .helpRequest
  else
    let resolvedFlagName := resolveName al flagIdentifier
    match List.lookup resolvedFlagName fl with
    | none => .error (mkParseErr ("Unknown flag".toList) (some flagIdentifier) none)
    | some f =>
        if flagExpectsExplicit f then
          match valueFromEquals with
          | some v =>
              match setValueFromString f v with
              | .error e => .error (wrapFlagError f valueFromEquals e)
              | .ok f1 => .ok (.processed (updateFlag fl resolvedFlagName f1) false)
          | none =>
              match peek with
              | some nxt =>
                  if listStartsWith nxt ("-".toList) then
                    .error (wrapFlagError f valueFromEquals
                      (mkParseErr ("requires a value".toList) (some f.name) none))
                  else
                    match setValueFromString f nxt with
                    | .error e => .error (wrapFlagError f valueFromEquals e)
                    | .ok f1 => .ok (.processed (updateFlag fl resolvedFlagName f1) true)
              | none =>
                  .error (wrapFlagError f valueFromEquals
                    (mkParseErr ("requires a value".toList) (some f.name) none))
        else
          match valueFromEquals with
          | some v =>
              match setValueFromString f v with
              | .error e => .error (wrapFlagError f valueFromEquals e)
              | .ok f1 => .ok (.processed (updateFlag fl resolvedFlagName f1) false)
          | none =>
              match setImplicitly f with
              | .error e => .error (wrapFlagError f valueFromEquals e)
              | .ok f1 => .ok (.processed (updateFlag fl resolvedFlagName f1) false)

/-- `FlagSet._parseOne` on the front token `arg`, with `peek` the next queued
token: classify (`--` terminator, non-flag, flag), strip one dash for a short
form or two for a long form, split an inline `=value` at the first `=`, and
hand over to the resolution stage. -/
def parseOne (al : List (List Char × List Char)) (fl : List (List Char × FlagM))
    (arg : List Char) (peek : Option (List Char)) : Except PError ParseOneOut :=
  if arg = "--".toList then .ok .terminator
  else if ¬listStartsWith arg ("-".toList) ∨ arg = "-".toList then .ok .notAFlag
  else
    let isFullOption := listStartsWith arg ("--".toList)
    let stripped := if isFullOption then arg.drop 2 else arg.drop 1
    let sp := splitEq stripped
    parseOneResolved al fl arg sp.1 sp.2 peek

/-- The `while` loop of `FlagSet.parse`: repeatedly `_parseOne` from the front
of the queue; a terminator or non-flag token empties the queue and ends the
loop; the first throw aborts with the flag map as already mutated. -/
def parseLoop (al : List (List Char × List Char)) (fl : List (List Char × FlagM)) :
    List (List Char) → Option PError × List (List Char × FlagM)
  | [] => (none, fl)
  | t :: rest =>
      match parseOne al fl t rest.head? with
      | .error e => (some e, fl)
      | .ok .terminator => (none, fl)
      | .ok .notAFlag => (none, fl)
      | .ok (.processed fl1 tookNext) =>
          if tookNext then
            match rest with
            | [] => (none, fl1)
            | _ :: rest1 => parseLoop al fl1 rest1
          else parseLoop al fl1 rest

/-- Result of a `parse` call: completed, failed with the thrown error, or the
help-requested signal. -/
inductive ParseResult : Type
  | completed
  | failed (e : PError)
  | helpRequested
deriving DecidableEq, Repr

/-- `FlagSet.parse` on an explicit token sequence: an already-parsed registry
is reset first (a throw there propagates before the loop and before the queue
is loaded); then the loop runs, and both the success path and the catch set
`isParsed` and clear the queue. -/
def parseFS (S : FlagSetM) (argv : List (List Char)) : ParseResult × FlagSetM :=
  let r := if S.isParsed then resetFS S else (none, S)
  match r.1 with
  | some e => (.failed e, r.2)
  | none =>
      let S1 := r.2
      match parseLoop S1.aliases S1.flags argv with
      | (some .helpRequest, fl1) =>
          (.helpRequested, { S1 with flags := fl1, isParsed := true, processingArgs := [] })
      | (some e, fl1) =>
          (.failed e, { S1 with flags := fl1, isParsed := true, processingArgs := [] })
      | (none, fl1) =>
          (.completed, { S1 with flags := fl1, isParsed := true, processingArgs := [] })

/-- An operation on a single flag: the value holder's `set`, the wrapper's
`applyExplicit` (`_setValueFromString`) or `applyImplicit` (`_setImplicitly`). -/
inductive FlagOp : Type
  | opSet (stringValue : List Char)
  | opApplyExplicit (stringValue : List Char)
  | opApplyImplicit
deriving DecidableEq, Repr

/-- Apply one `FlagOp` to a flag. -/
def applyFlagOp (f : FlagM) : FlagOp → Except PError FlagM
  | .opSet s =>
      match valueSet f.value s with
      | .error e => .error e
      | .ok v => .ok { f with value := v }
  | .opApplyExplicit s => setValueFromString f s
  | .opApplyImplicit => setImplicitly f

/-- Run a sequence of flag operations, stopping at the first error. -/
def runOps (f : FlagM) : List FlagOp → Except PError FlagM
  | [] => .ok f
  | op :: rest =>
      match applyFlagOp f op with
      | .error e => .error e
      | .ok f1 => runOps f1 rest

/-- The two value holders hold the same variant (and, for string lists, the
same frozen initial default). -/
def sameShapeDflt : FlagVal → FlagVal → Prop
  | .bool _, .bool _ => True
  | .str _, .str _ => True
  | .num _, .num _ => True
  | .strList _ d1, .strList _ d2 => d1 = d2
  | _, _ => False

/-- A finite number is in the normalized form the embedding stores. -/
def goodNum : JsNum → Prop
  | .fin m e => e = 0 ∨ m % 10 ≠ 0
  | .inf => True
  | .negInf => True

/-- A construction-time value holder whose captured default string survives
`_clearAndReset` unchanged in meaning: any boolean, a non-empty string, any
(normalized) number, and a string list whose current sequence still equals its
frozen default. -/
def goodDefault : FlagVal → Prop
  | .bool _ => True
  | .str s => s ≠ []
  | .num j => goodNum j
  | .strList cur dflt => cur = dflt

/-- The flag looks like one constructed over the default holder `v0` and then
operated on: the captured default string is `v0`'s rendering, the current
holder has `v0`'s variant, and `v0` is a well-behaved default. -/
def entrySpec (f : FlagM) (v0 : FlagVal) : Prop :=
  f.initialDefaultValueString = valueAsString v0 ∧ sameShapeDflt v0 f.value ∧ goodDefault v0

/-- `_resetToDefault` as a total function: the reset flag on success, the flag
unchanged when the reset throws. -/
def resetEntryTotal (f : FlagM) : FlagM :=
  match resetToDefault f with
  | .ok f1 => f1
  | .error _ => f

/-- Replace the short-form token of alias `a` by the long-form token of the
name `n` (all other tokens unchanged). -/
def substTok (a n t : List Char) : List Char :=
  if t = '-' :: a then '-' :: '-' :: n else t

/-- The stripped identifier of a flag-shaped token: drop one or two leading
dashes, keep what precedes the first `=`. -/
def stripIdOf (t : List Char) : List Char :=
  (splitEq (if listStartsWith t ("--".toList) then t.drop 2 else t.drop 1)).1

/-- Modelled from the spec words for C5 only: a string that is, in its
entirety, a floating-point number literal (optional sign; digits with an
optional fraction, or a bare fraction; optional signed integer exponent). -/
def specIsNumberLiteral (s : List Char) : Bool :=
  let s1 := (stripSign s).2
  let ip := s1.takeWhile isDigitChar
  let r1 := s1.dropWhile isDigitChar
  let fr := stripFrac r1
  let ok1 := ¬(ip = [] ∧ fr.1 = [])
  match fr.2 with
  | [] => ok1
  | e :: r3 =>
      if e = 'e' ∨ e = 'E' then
        let r4 := (stripSign r3).2
        ok1 ∧ r4 ≠ [] ∧ r4 ≠ [] ∧ r4.all isDigitChar
      else false

/-- Unwrap a successfully built registry (all the concrete registries below do
register successfully). -/
def getOkFS (x : Except (List Char) FlagSetM) : FlagSetM :=
  match x with
  | .ok s => s
  | .error _ => emptyFS

/-- Concrete registry: boolean `verbose` (alias `v`, default false) and string
`config` (alias `c`, default `"d.json"`). -/
def vcFS : FlagSetM :=
  getOkFS (do
    let s1 ← fsBool emptyFS ("verbose".toList) [] (some ("v".toList)) none
    fsString s1 ("config".toList) [] (some ("c".toList)) (some ("d.json".toList)))

/-- Concrete registry: number `port` (alias `p`, default 0). -/
def portFS : FlagSetM :=
  getOkFS (fsNumber emptyFS ("port".toList) [] (some ("p".toList)) none)

/-- Concrete registry: string `s` with the factory's default `""`. -/
def sEmptyFS : FlagSetM :=
  getOkFS (fsString emptyFS ("s".toList) [] none none)

/-- Concrete registry: string `config` with alias `h` and default `"d"`. -/
def aliasHFS : FlagSetM :=
  getOkFS (fsString emptyFS ("config".toList) [] (some ("h".toList)) (some ("d".toList)))

theorem digitVal_digitChar {n : Nat} (h : n < 10) : digitVal (digitChar n) = n := by
  interval_cases n <;> decide

theorem isDigitChar_digitChar {n : Nat} (h : n < 10) : isDigitChar (digitChar n) = true := by
  interval_cases n <;> decide

theorem natReprAux_mem {fuel n : Nat} (hf : n < fuel) :
    ∀ c ∈ natReprAux fuel n, ∃ k, k < 10 ∧ c = digitChar k := by
  induction fuel generalizing n with
  | zero => omega
  | succ fuel ih =>
      intro c hc
      by_cases h10 : n < 10
      · simp only [natReprAux, if_pos h10, List.mem_singleton] at hc
        exact ⟨n, h10, hc⟩
      · simp only [natReprAux, if_neg h10, List.mem_append, List.mem_singleton] at hc
        rcases hc with hc | hc
        · exact ih (by omega : n / 10 < fuel) c hc
        · exact ⟨n % 10, Nat.mod_lt _ (by omega), hc⟩

theorem natReprAux_ne_nil {fuel n : Nat} (hf : 0 < fuel) : natReprAux fuel n ≠ [] := by
  cases fuel with
  | zero => omega
  | succ fuel =>
      by_cases h10 : n < 10
      · simp [natReprAux, if_pos h10]
      · simp [natReprAux, if_neg h10]

theorem digitsToNat_shift (L : List Char) (a : Nat) :
    L.foldl (fun x c => 10 * x + digitVal c) a =
      a * 10 ^ L.length + digitsToNat L := by
  induction L generalizing a with
  | nil => simp [digitsToNat]
  | cons c L ih =>
      simp only [List.foldl_cons, List.length_cons, digitsToNat] at *
      rw [ih (10 * a + digitVal c), ih (10 * 0 + digitVal c)]
      ring

theorem digitsToNat_append (A B : List Char) :
    digitsToNat (A ++ B) = digitsToNat A * 10 ^ B.length + digitsToNat B := by
  simp only [digitsToNat, List.foldl_append]
  rw [digitsToNat_shift B (A.foldl (fun x c => 10 * x + digitVal c) 0)]
  rfl

theorem digitsToNat_replicate_zero (k : Nat) (A : List Char) :
    digitsToNat (List.replicate k '0' ++ A) = digitsToNat A := by
  induction k with
  | zero => simp
  | succ k ih =>
      have : List.replicate (k + 1) '0' ++ A = '0' :: (List.replicate k '0' ++ A) := by
        simp [List.replicate]
      rw [this]
      simp only [digitsToNat, List.foldl_cons] at *
      simpa [digitVal] using ih

theorem digitsToNat_natReprAux {fuel n : Nat} (hf : n < fuel) :
    digitsToNat (natReprAux fuel n) = n := by
  induction fuel generalizing n with
  | zero => omega
  | succ fuel ih =>
      by_cases h10 : n < 10
      · simp [natReprAux, if_pos h10, digitsToNat, digitVal_digitChar h10]
      · rw [natReprAux, if_neg h10, digitsToNat_append]
        rw [ih (by omega : n / 10 < fuel)]
        simp [digitsToNat, digitVal_digitChar (Nat.mod_lt n (by omega) : n % 10 < 10)]
        omega

theorem digitsToNat_natRepr (n : Nat) : digitsToNat (natRepr n) = n :=
  digitsToNat_natReprAux (Nat.lt_succ_self n)

theorem natRepr_mem (n : Nat) : ∀ c ∈ natRepr n, ∃ k, k < 10 ∧ c = digitChar k :=
  natReprAux_mem (Nat.lt_succ_self n)

theorem natRepr_ne_nil (n : Nat) : natRepr n ≠ [] :=
  natReprAux_ne_nil (Nat.succ_pos n)

theorem digitChar_side {k : Nat} (h : k < 10) :
    isWsChar (digitChar k) = false ∧ digitChar k ≠ '+' ∧ digitChar k ≠ '-' ∧
      digitChar k ≠ 'I' ∧ digitChar k ≠ '.' := by
  interval_cases k <;> refine ⟨by decide, by decide, by decide, by decide, by decide⟩

theorem takeWhile_all {p : Char → Bool} {A : List Char} (h : ∀ c ∈ A, p c = true) :
    A.takeWhile p = A := by
  induction A with
  | nil => rfl
  | cons a A ih =>
      rw [List.takeWhile_cons, if_pos (h a (List.mem_cons_self a A))]
      rw [ih fun c hc => h c (List.mem_cons_of_mem a hc)]

theorem dropWhile_all {p : Char → Bool} {A : List Char} (h : ∀ c ∈ A, p c = true) :
    A.dropWhile p = [] := by
  induction A with
  | nil => rfl
  | cons a A ih =>
      rw [List.dropWhile_cons, if_pos (h a (List.mem_cons_self a A))]
      exact ih fun c hc => h c (List.mem_cons_of_mem a hc)

theorem takeWhile_append_all {p : Char → Bool} {A : List Char} (B : List Char)
    (h : ∀ c ∈ A, p c = true) :
    (A ++ B).takeWhile p = A ++ B.takeWhile p := by
  induction A with
  | nil => rfl
  | cons a A ih =>
      rw [List.cons_append, List.takeWhile_cons, if_pos (h a (List.mem_cons_self a A))]
      rw [ih fun c hc => h c (List.mem_cons_of_mem a hc)]
      rfl

theorem dropWhile_append_all {p : Char → Bool} {A : List Char} (B : List Char)
    (h : ∀ c ∈ A, p c = true) :
    (A ++ B).dropWhile p = B.dropWhile p := by
  induction A with
  | nil => rfl
  | cons a A ih =>
      rw [List.cons_append, List.dropWhile_cons, if_pos (h a (List.mem_cons_self a A))]
      exact ih fun c hc => h c (List.mem_cons_of_mem a hc)

theorem normDec_canonical {m : Int} {e : Nat} (h : e = 0 ∨ m % 10 ≠ 0) :
    normDec m e = (m, e) := by
  rcases h with h | h
  · subst h; rfl
  · unfold normDec
    cases e with
    | zero => rfl
    | succ e => simp [normDecAux, h]

theorem listStartsWith_cons_ne {a : Char} {as rest : List Char} {d : Char}
    (h : a ≠ d) : listStartsWith (a :: as) (d :: rest) = false := by
  simp [listStartsWith, h]

theorem listStartsWith_infinity_false {A : List Char} {a : Char} {as : List Char}
    (hA : A = a :: as) (ha : a ≠ 'I') :
    listStartsWith A ("Infinity".toList) = false := by
  subst hA
  rw [show ("Infinity".toList) = 'I' :: ("nfinity".toList) from by decide]
  exact listStartsWith_cons_ne ha

theorem parseFloatBody_all_digits (neg : Bool) (A : List Char)
    (hA : ∀ c ∈ A, isDigitChar c = true) (hne : A ≠ [])
    (hI : listStartsWith A ("Infinity".toList) = false) :
    parseFloatBody neg A = some (mkJsNum neg A [] 0) := by
  unfold parseFloatBody
  rw [hI]
  rw [takeWhile_all hA, dropWhile_all hA]
  simp [stripFrac, stripExp, hne]

theorem parseFloatBody_point (neg : Bool) (A B : List Char)
    (hA : ∀ c ∈ A, isDigitChar c = true) (hB : ∀ c ∈ B, isDigitChar c = true)
    (hne : A ≠ [])
    (hI : listStartsWith (A ++ '.' :: B) ("Infinity".toList) = false) :
    parseFloatBody neg (A ++ '.' :: B) = some (mkJsNum neg A B 0) := by
  unfold parseFloatBody
  rw [hI]
  rw [takeWhile_append_all _ hA, dropWhile_append_all _ hA]
  rw [List.takeWhile_cons, List.dropWhile_cons]
  simp only [show isDigitChar '.' = false from by decide, if_false]
  simp [stripFrac, stripExp, takeWhile_all hB, dropWhile_all hB, hne]

theorem mkJsNum_zero_exp (neg : Bool) (A B : List Char)
    (hcan : B.length = 0 ∨
      (Int.ofNat (digitsToNat A * 10 ^ B.length + digitsToNat B)) % 10 ≠ 0) :
    mkJsNum neg A B 0 =
      .fin (if neg then -(Int.ofNat (digitsToNat A * 10 ^ B.length + digitsToNat B))
            else Int.ofNat (digitsToNat A * 10 ^ B.length + digitsToNat B)) B.length := by
  unfold mkJsNum
  rw [show (0 : Int) = Int.ofNat 0 from rfl]
  simp only [pow_zero, Nat.mul_one]
  rw [normDec_canonical hcan]

theorem natRepr_head_not_inf (n : Nat) :
    ∃ a as, natRepr n = a :: as ∧ a ≠ 'I' ∧ isDigitChar a = true := by
  obtain ⟨a, as, hA⟩ := List.exists_cons_of_ne_nil (natRepr_ne_nil n)
  have ha : a ∈ natRepr n := by rw [hA]; exact List.mem_cons_self a as
  obtain ⟨k, hk, rfl⟩ := natRepr_mem n a ha
  exact ⟨_, as, hA, (digitChar_side hk).2.2.2.1, isDigitChar_digitChar hk⟩

theorem parseFloatBody_renderDecNN (neg : Bool) (n e : Nat)
    (hcan : e = 0 ∨ (Int.ofNat n) % 10 ≠ 0) :
    parseFloatBody neg (renderDecNN n e) =
      some (.fin (if neg then -(Int.ofNat n) else Int.ofNat n) e) := by
  have hall : ∀ c ∈ natRepr n, isDigitChar c = true := by
    intro c hc
    obtain ⟨k, hk, rfl⟩ := natRepr_mem n c hc
    exact isDigitChar_digitChar hk
  by_cases he : e = 0
  · subst he
    obtain ⟨a, as, hA, haI, _⟩ := natRepr_head_not_inf n
    have hI := listStartsWith_infinity_false hA haI
    rw [show renderDecNN n 0 = natRepr n from by simp [renderDecNN]]
    rw [parseFloatBody_all_digits neg (natRepr n) hall (natRepr_ne_nil n) hI]
    rw [mkJsNum_zero_exp neg (natRepr n) [] (Or.inl rfl)]
    simp [digitsToNat_natRepr, show digitsToNat ([] : List Char) = 0 from rfl]
  · have hL : 1 ≤ (natRepr n).length := List.length_pos.mpr (natRepr_ne_nil n)
    have hrw : renderDecNN n e =
        (List.replicate (e + 1 - (natRepr n).length) '0' ++ natRepr n).take
            ((List.replicate (e + 1 - (natRepr n).length) '0' ++ natRepr n).length - e) ++
          '.' :: (List.replicate (e + 1 - (natRepr n).length) '0' ++ natRepr n).drop
            ((List.replicate (e + 1 - (natRepr n).length) '0' ++ natRepr n).length - e) := by
      simp only [renderDecNN, if_neg he]
    set padded := List.replicate (e + 1 - (natRepr n).length) '0' ++ natRepr n with hpad
    have hplen : e + 1 ≤ padded.length := by
      rw [hpad, List.length_append, List.length_replicate]
      omega
    have hallp : ∀ c ∈ padded, isDigitChar c = true := by
      intro c hc
      rw [hpad] at hc
      rcases List.mem_append.mp hc with hc | hc
      · rw [List.eq_of_mem_replicate hc]; decide
      · exact hall c hc
    set A := padded.take (padded.length - e) with hAdef
    set B := padded.drop (padded.length - e) with hBdef
    have hAB : A ++ B = padded := List.take_append_drop _ _
    have hBlen : B.length = e := by
      rw [hBdef, List.length_drop]
      omega
    have hAlen : 1 ≤ A.length := by
      rw [hAdef, List.length_take]
      omega
    have hAne : A ≠ [] := by
      intro h
      rw [h] at hAlen
      simp at hAlen
    have hAall : ∀ c ∈ A, isDigitChar c = true := fun c hc =>
      hallp c (List.take_subset _ _ hc)
    have hBall : ∀ c ∈ B, isDigitChar c = true := fun c hc =>
      hallp c (List.drop_subset _ _ hc)
    obtain ⟨a, as, hAcons⟩ := List.exists_cons_of_ne_nil hAne
    have haI : a ≠ 'I' := by
      have ha : a ∈ A := by rw [hAcons]; exact List.mem_cons_self a as
      have := hAall a ha
      intro h
      rw [h] at this
      exact absurd this (by decide)
    have hI : listStartsWith (A ++ '.' :: B) ("Infinity".toList) = false := by
      refine @listStartsWith_infinity_false (A ++ '.' :: B) a (as ++ '.' :: B) ?_ haI
      rw [hAcons]
      rfl
    have hsum : digitsToNat A * 10 ^ B.length + digitsToNat B = n := by
      rw [← digitsToNat_append, hAB, hpad, digitsToNat_replicate_zero, digitsToNat_natRepr]
    rw [hrw, parseFloatBody_point neg A B hAall hBall hAne hI]
    rw [mkJsNum_zero_exp neg A B (by rw [hsum, hBlen]; exact Or.inr (hcan.resolve_left he))]
    rw [hsum, hBlen]

theorem renderDecNN_head (n e : Nat) :
    ∃ k as, k < 10 ∧ renderDecNN n e = digitChar k :: as := by
  by_cases he : e = 0
  · subst he
    obtain ⟨a, as, hA⟩ := List.exists_cons_of_ne_nil (natRepr_ne_nil n)
    have ha : a ∈ natRepr n := by rw [hA]; exact List.mem_cons_self a as
    obtain ⟨k, hk, rfl⟩ := natRepr_mem n a ha
    exact ⟨k, as, hk, by simpa [renderDecNN] using hA⟩
  · have hL : 1 ≤ (natRepr n).length := List.length_pos.mpr (natRepr_ne_nil n)
    set padded := List.replicate (e + 1 - (natRepr n).length) '0' ++ natRepr n with hpad
    have hplen : e + 1 ≤ padded.length := by
      rw [hpad, List.length_append, List.length_replicate]
      omega
    obtain ⟨p, ps, hps⟩ : ∃ p ps, padded = p :: ps := by
      refine List.exists_cons_of_ne_nil ?_
      intro h
      rw [h] at hplen
      simp at hplen
    obtain ⟨j, hj⟩ : ∃ j, padded.length - e = j + 1 := ⟨padded.length - e - 1, by omega⟩
    have hp : p ∈ padded := by rw [hps]; exact List.mem_cons_self p ps
    obtain ⟨k, hk, hpk⟩ : ∃ k, k < 10 ∧ p = digitChar k := by
      rw [hpad] at hp
      rcases List.mem_append.mp hp with hp | hp
      · exact ⟨0, by omega, List.eq_of_mem_replicate hp⟩
      · exact natRepr_mem n p hp
    refine ⟨k, ps.take j ++ '.' :: ps.drop j, hk, ?_⟩
    have hgoal : renderDecNN n e =
        padded.take (padded.length - e) ++ '.' :: padded.drop (padded.length - e) := by
      simp only [renderDecNN, if_neg he, ← hpad]
    rw [hgoal, hj, hps, List.take_succ_cons, List.drop_succ_cons, ← hpk]
    rfl

theorem parseFloat_eq (s : List Char) :
    parseFloat s =
      parseFloatBody (stripSign (s.dropWhile isWsChar)).1
        (stripSign (s.dropWhile isWsChar)).2 :=
  rfl

theorem stripSign_minus (r : List Char) : stripSign ('-' :: r) = (true, r) := by
  simp [stripSign]

theorem stripSign_digit {k : Nat} (hk : k < 10) (r : List Char) :
    stripSign (digitChar k :: r) = (false, digitChar k :: r) := by
  have h := digitChar_side hk
  simp [stripSign, h.2.1, h.2.2.1]

theorem dropWhile_ws_digit {k : Nat} (hk : k < 10) (r : List Char) :
    (digitChar k :: r).dropWhile isWsChar = digitChar k :: r := by
  rw [List.dropWhile_cons, if_neg (by simp [(digitChar_side hk).1])]

theorem parseFloat_jsNumToString (j : JsNum) (hj : goodNum j) :
    parseFloat (jsNumToString j) = some j := by
  cases j with
  | inf => decide
  | negInf => decide
  | fin m e =>
      have hj1 : e = 0 ∨ m % 10 ≠ 0 := hj
      by_cases hm : m < 0
      · have hts : (Int.ofNat (-m).toNat) = -m := by
          have := Int.toNat_of_nonneg (by omega : (0 : Int) ≤ -m)
          exact_mod_cast this
        have hcan : e = 0 ∨ (Int.ofNat ((-m).toNat)) % 10 ≠ 0 := by
          rcases hj1 with h | h
          · exact Or.inl h
          · refine Or.inr ?_
            rw [hts]
            intro hc
            apply h
            omega
        obtain ⟨k, as, hk, hhead⟩ := renderDecNN_head ((-m).toNat) e
        rw [show jsNumToString (.fin m e) = '-' :: renderDecNN ((-m).toNat) e from by
          simp [jsNumToString, hm]]
        rw [parseFloat_eq]
        rw [List.dropWhile_cons, if_neg (by decide)]
        rw [stripSign_minus]
        rw [parseFloatBody_renderDecNN true ((-m).toNat) e hcan]
        rw [if_pos rfl, hts, neg_neg]
      · have hts : (Int.ofNat m.toNat) = m := by
          have := Int.toNat_of_nonneg (by omega : (0 : Int) ≤ m)
          exact_mod_cast this
        have hcan : e = 0 ∨ (Int.ofNat (m.toNat)) % 10 ≠ 0 := by
          rcases hj1 with h | h
          · exact Or.inl h
          · refine Or.inr ?_
            rw [hts]
            exact h
        obtain ⟨k, as, hk, hhead⟩ := renderDecNN_head (m.toNat) e
        rw [show jsNumToString (.fin m e) = renderDecNN (m.toNat) e from by
          simp [jsNumToString, hm]]
        rw [parseFloat_eq, hhead]
        rw [dropWhile_ws_digit hk, stripSign_digit hk]
        rw [← hhead, parseFloatBody_renderDecNN false (m.toNat) e hcan]
        rw [if_neg (by simp), hts]

theorem jsNumToString_ne_nil (j : JsNum) : jsNumToString j ≠ [] := by
  cases j with
  | inf => decide
  | negInf => decide
  | fin m e =>
      by_cases hm : m < 0
      · simp [jsNumToString, hm]
      · obtain ⟨k, as, _, heq⟩ := renderDecNN_head m.toNat e
        simp [jsNumToString, hm, heq]

theorem sameShapeDflt_refl (v : FlagVal) : sameShapeDflt v v := by
  cases v <;> simp [sameShapeDflt]

theorem sameShapeDflt_trans {a b c : FlagVal}
    (h1 : sameShapeDflt a b) (h2 : sameShapeDflt b c) : sameShapeDflt a c := by
  cases a <;> cases b <;> cases c <;> simp_all [sameShapeDflt]

theorem valueSet_shape {v w : FlagVal} {s : List Char} (h : valueSet v s = .ok w) :
    sameShapeDflt v w := by
  cases v with
  | bool b =>
      simp only [valueSet] at h
      split at h
      · cases h; simp [sameShapeDflt]
      · split at h
        · cases h; simp [sameShapeDflt]
        · cases h
  | str s2 => cases h; simp [sameShapeDflt]
  | num j =>
      simp only [valueSet] at h
      split at h
      · cases h
      · cases h; simp [sameShapeDflt]
  | strList cur dflt => cases h; simp [sameShapeDflt]

theorem applyFlagOp_pres {f f1 : FlagM} {op : FlagOp} (h : applyFlagOp f op = .ok f1) :
    f1.initialDefaultValueString = f.initialDefaultValueString ∧
      sameShapeDflt f.value f1.value := by
  cases op with
  | opSet s =>
      simp only [applyFlagOp] at h
      split at h
      · cases h
      · rename_i v hv
        cases h
        exact ⟨rfl, valueSet_shape hv⟩
  | opApplyExplicit s =>
      simp only [applyFlagOp, setValueFromString] at h
      split at h
      · cases h
      · rename_i v hv
        cases h
        exact ⟨rfl, valueSet_shape hv⟩
  | opApplyImplicit =>
      simp only [applyFlagOp, setImplicitly] at h
      split at h
      · split at h
        · cases h
        · rename_i v hv
          cases h
          exact ⟨rfl, valueSet_shape hv⟩
      · cases h

theorem runOps_pres {ops : List FlagOp} {f f1 : FlagM} (h : runOps f ops = .ok f1) :
    f1.initialDefaultValueString = f.initialDefaultValueString ∧
      sameShapeDflt f.value f1.value := by
  induction ops generalizing f with
  | nil => cases h; exact ⟨rfl, sameShapeDflt_refl _⟩
  | cons op rest ih =>
      simp only [runOps] at h
      split at h
      · cases h
      · rename_i f2 hop
        obtain ⟨hd1, hs1⟩ := applyFlagOp_pres hop
        obtain ⟨hd2, hs2⟩ := ih h
        exact ⟨hd2.trans hd1, sameShapeDflt_trans hs1 hs2⟩

theorem clearAndReset_bool (b2 b : Bool) :
    clearAndReset (.bool b2) (valueAsString (.bool b)) = .ok (.bool b) := by
  cases b2 <;> cases b <;> decide

theorem clearAndReset_str {s : List Char} (s2 : List Char) (h : s ≠ []) :
    clearAndReset (.str s2) s = .ok (.str s) := by
  simp [clearAndReset, valueSet, h]

theorem clearAndReset_num (j2 : JsNum) {j : JsNum} (hg : goodNum j) :
    clearAndReset (.num j2) (jsNumToString j) = .ok (.num j) := by
  simp [clearAndReset, jsNumToString_ne_nil j, valueSet, parseFloat_jsNumToString j hg]

theorem resetToDefault_ok {f : FlagM} {v0 : FlagVal} (h : entrySpec f v0) :
    resetToDefault f = .ok { f with value := v0, isSet := false } := by
  obtain ⟨hd, hs, hg⟩ := h
  unfold resetToDefault
  cases hv0 : v0 with
  | bool b =>
      rw [hv0] at hs hd
      cases hfv : f.value <;> rw [hfv] at hs <;> try simp [sameShapeDflt] at hs
      rename_i b2
      rw [hd, clearAndReset_bool b2 b]
  | str s =>
      rw [hv0] at hs hd hg
      cases hfv : f.value <;> rw [hfv] at hs <;> try simp [sameShapeDflt] at hs
      rename_i s2
      have hg1 : s ≠ [] := hg
      rw [hd, show valueAsString (FlagVal.str s) = s from rfl, clearAndReset_str s2 hg1]
  | num j =>
      rw [hv0] at hs hd hg
      cases hfv : f.value <;> rw [hfv] at hs <;> try simp [sameShapeDflt] at hs
      rename_i j2
      have hg1 : goodNum j := hg
      rw [hd, show valueAsString (FlagVal.num j) = jsNumToString j from rfl,
        clearAndReset_num j2 hg1]
  | strList cur dflt =>
      rw [hv0] at hs hd hg
      cases hfv : f.value <;> rw [hfv] at hs <;> try simp [sameShapeDflt] at hs
      rename_i cur2 dflt2
      simp only [clearAndReset]
      rw [show dflt2 = dflt from hs.symm, show (cur : List (List Char)) = dflt from hg]

theorem mkFlag_fields {name descr : List Char} {aliasOpt : Option (List Char)}
    {v0 : FlagVal} {f0 : FlagM} (h : mkFlag name descr aliasOpt v0 = .ok f0) :
    f0.value = v0 ∧ f0.initialDefaultValueString = valueAsString v0 := by
  cases aliasOpt with
  | none =>
      simp only [mkFlag] at h
      cases h; exact ⟨rfl, rfl⟩
  | some a =>
      simp only [mkFlag] at h
      split at h
      · cases h; exact ⟨rfl, rfl⟩
      · split at h
        · cases h
        · cases h; exact ⟨rfl, rfl⟩

/-- C1, counterexample: a string flag whose constructor-time default is the
empty string (the factory default).  After one successful `applyExplicit`,
`resetToDefault` completes and clears `isSet`, but the value stays `"x"`
instead of returning to the default `""`, because `_clearAndReset` skips the
falsy empty default string. -/
theorem c1_counterexample :
    mkFlag ("s".toList) [] none (.str []) =
      .ok ⟨"s".toList, [], none, .str [], [], false⟩ ∧
    runOps ⟨"s".toList, [], none, .str [], [], false⟩ [.opApplyExplicit ("x".toList)] =
      .ok ⟨"s".toList, [], none, .str ("x".toList), [], true⟩ ∧
    resetToDefault ⟨"s".toList, [], none, .str ("x".toList), [], true⟩ =
      .ok ⟨"s".toList, [], none, .str ("x".toList), [], false⟩ ∧
    FlagVal.str ("x".toList) ≠ FlagVal.str [] := by
  refine ⟨by decide, by decide, by decide, by decide⟩

/-- C1 (amended): for every flag built by the `Flag` constructor over a
well-behaved default holder — any boolean, a non-empty string, any number, or
a string list (whose current sequence equals its frozen default at
construction) — after any sequence of successful `set` / `applyExplicit` /
`applyImplicit` operations, `resetToDefault` succeeds, restores the value to
exactly the constructor-time default (for string lists, the original sequence
in order) and clears `isSet`.  String flags whose default is the empty string
are the exception the counterexample forces: they keep the last assigned
value (though `isSet` is still cleared). -/
theorem c1_reset_restores_default (name descr : List Char)
    (aliasOpt : Option (List Char)) (v0 : FlagVal) (f0 f1 : FlagM)
    (ops : List FlagOp)
    (hmk : mkFlag name descr aliasOpt v0 = .ok f0)
    (hgood : goodDefault v0)
    (hrun : runOps f0 ops = .ok f1) :
    resetToDefault f1 = .ok { f1 with value := v0, isSet := false } := by
  obtain ⟨hval, hstr⟩ := mkFlag_fields hmk
  obtain ⟨hd, hs⟩ := runOps_pres hrun
  refine resetToDefault_ok ⟨hd.trans hstr, ?_, hgood⟩
  rw [← hval]
  exact hs

/-- Witness for C1: a string flag with non-empty default `"d.json"`, set to
`"user.json"`, is restored by `resetToDefault`. -/
theorem c1_witness :
    resetToDefault ⟨"config".toList, [], none, .str ("user.json".toList),
        "d.json".toList, true⟩ =
      .ok ⟨"config".toList, [], none, .str ("d.json".toList),
        "d.json".toList, false⟩ :=
  c1_reset_restores_default ("config".toList) [] none (.str ("d.json".toList))
    ⟨"config".toList, [], none, .str ("d.json".toList), "d.json".toList, false⟩
    ⟨"config".toList, [], none, .str ("user.json".toList), "d.json".toList, true⟩
    [.opApplyExplicit ("user.json".toList)]
    (by decide) (by show ("d.json".toList : List Char) ≠ []; decide) (by decide)

/-- C4, counterexample: on a fresh registry (`isParsed = false`), parsing
`["-h"]` raises the help signal, yet the catch-all in `parse` still records
`isParsed = true` — the help signal does not leave `isParsed` unchanged. -/
theorem c4_counterexample :
    vcFS.isParsed = false ∧
    (parseFS vcFS [("-h".toList)]).1 = .helpRequested ∧
    ((parseFS vcFS [("-h".toList)]).2).isParsed = true := by
  refine ⟨by decide, by decide, by decide⟩

/-- C4 (amended): every call to `parse` — completed, failed, or aborted by the
help-requested signal — leaves the registry with `isParsed = true`: the
catch-all around the token loop marks the registry parsed before rethrowing,
and the reset-throw path can only occur when `isParsed` was already true. -/
theorem c4_isparsed_after_parse (S : FlagSetM) (argv : List (List Char)) :
    ((parseFS S argv).2).isParsed = true := by
  by_cases hp : S.isParsed
  · unfold parseFS resetFS
    rw [if_pos hp]
    rcases hres : resetFlags S.flags with ⟨oe, fl2⟩
    cases oe with
    | some e => exact hp
    | none =>
        dsimp only
        rcases hloop : parseLoop S.aliases fl2 argv with ⟨oe2, fl1⟩
        rcases oe2 with _ | e
        · rfl
        · cases e <;> rfl
  · unfold parseFS
    rw [if_neg hp]
    dsimp only
    rcases hloop : parseLoop S.aliases S.flags argv with ⟨oe2, fl1⟩
    rcases oe2 with _ | e
    · rfl
    · cases e <;> rfl

theorem splitEq_no_eq {l : List Char} (h : '=' ∉ l) : splitEq l = (l, none) := by
  induction l with
  | nil => rfl
  | cons c r ih =>
      have hc : c ≠ '=' := fun hc => h (hc ▸ List.mem_cons_self c r)
      have hr : '=' ∉ r := fun hr => h (List.mem_cons_of_mem c hr)
      simp [splitEq, hc, ih hr]

theorem splitEq_with_eq {id : List Char} (v : List Char) (h : '=' ∉ id) :
    splitEq (id ++ '=' :: v) = (id, some v) := by
  induction id with
  | nil => simp [splitEq]
  | cons c r ih =>
      have hc : c ≠ '=' := fun hc => h (hc ▸ List.mem_cons_self c r)
      have hr : '=' ∉ r := fun hr => h (List.mem_cons_of_mem c hr)
      simp [splitEq, hc, ih hr]

theorem parseOne_long (al : List (List Char × List Char)) (fl : List (List Char × FlagM))
    (id0 : List Char) (peek : Option (List Char)) (hne : id0 ≠ []) :
    parseOne al fl ('-' :: '-' :: id0) peek =
      parseOneResolved al fl ('-' :: '-' :: id0) (splitEq id0).1 (splitEq id0).2 peek := by
  unfold parseOne
  rw [if_neg (by simp [show ("--".toList) = ['-', '-'] from rfl, hne])]
  rw [if_neg (by simp [show ("-".toList) = ['-'] from rfl, listStartsWith])]
  have hfull : listStartsWith ('-' :: '-' :: id0) ("--".toList) = true := by
    simp [show ("--".toList) = ['-', '-'] from rfl, listStartsWith]
  simp only [hfull, if_true, List.drop_succ_cons, List.drop_zero]

theorem parseOne_short (al : List (List Char × List Char)) (fl : List (List Char × FlagM))
    (a : List Char) (peek : Option (List Char)) (ha : a ≠ [])
    (hnd : listStartsWith a ("-".toList) = false) :
    parseOne al fl ('-' :: a) peek =
      parseOneResolved al fl ('-' :: a) (splitEq a).1 (splitEq a).2 peek := by
  unfold parseOne
  rw [if_neg (by
    simp only [show ("--".toList) = ['-', '-'] from rfl, List.cons.injEq, true_and]
    intro h
    rw [h] at hnd
    simp [show ("-".toList) = ['-'] from rfl, listStartsWith] at hnd)]
  rw [if_neg (by simp [show ("-".toList) = ['-'] from rfl, listStartsWith, ha])]
  have hfull : listStartsWith ('-' :: a) ("--".toList) = false := by
    simp only [show ("--".toList) = ['-', '-'] from rfl, listStartsWith]
    simpa [show ("-".toList) = ['-'] from rfl] using hnd
  simp only [hfull, if_false, Bool.false_eq_true, List.drop_succ_cons, List.drop_zero]

theorem parseOneResolved_hyps_aux {id : List Char}
    (hne : id ≠ []) (hnd : listStartsWith id ("-".toList) = false)
    (hnh : id ≠ "h".toList) (hnhelp : id ≠ "help".toList) :
    ¬(id = [] ∨ listStartsWith id ("-".toList) = true) ∧
      ¬(id = "h".toList ∨ id = "help".toList) := by
  constructor
  · rintro (h | h)
    · exact hne h
    · rw [hnd] at h; cases h
  · rintro (h | h)
    · exact hnh h
    · exact hnhelp h

theorem parseOneResolved_inline (al : List (List Char × List Char))
    (fl : List (List Char × FlagM)) (arg id v : List Char)
    (peek : Option (List Char)) (f : FlagM)
    (hne : id ≠ []) (hnd : listStartsWith id ("-".toList) = false)
    (hnh : id ≠ "h".toList) (hnhelp : id ≠ "help".toList)
    (hf : List.lookup (resolveName al id) fl = some f) :
    parseOneResolved al fl arg id (some v) peek =
      (match setValueFromString f v with
       | .error e => .error (wrapFlagError f (some v) e)
       | .ok f1 => .ok (.processed (updateFlag fl (resolveName al id) f1) false)) := by
  obtain ⟨h1, h2⟩ := parseOneResolved_hyps_aux hne hnd hnh hnhelp
  unfold parseOneResolved
  rw [if_neg h1, if_neg h2]
  dsimp only
  rw [hf]
  cases hex : flagExpectsExplicit f
  · simp only [hex, Bool.false_eq_true, if_false]
  · simp only [hex, if_true]

theorem parseOneResolved_bool_bare (al : List (List Char × List Char))
    (fl : List (List Char × FlagM)) (arg id : List Char)
    (peek : Option (List Char)) (f : FlagM) (b : Bool)
    (hne : id ≠ []) (hnd : listStartsWith id ("-".toList) = false)
    (hnh : id ≠ "h".toList) (hnhelp : id ≠ "help".toList)
    (hf : List.lookup (resolveName al id) fl = some f)
    (hb : f.value = .bool b) :
    parseOneResolved al fl arg id none peek =
      .ok (.processed (updateFlag fl (resolveName al id)
        { f with value := .bool true, isSet := true }) false) := by
  obtain ⟨h1, h2⟩ := parseOneResolved_hyps_aux hne hnd hnh hnhelp
  unfold parseOneResolved
  rw [if_neg h1, if_neg h2]
  dsimp only
  rw [hf]
  have hex : flagExpectsExplicit f = false := by
    simp [flagExpectsExplicit, hb, valExpectsExplicit]
  simp only [hex, Bool.false_eq_true, if_false]
  have himp : setImplicitly f = .ok { f with value := .bool true, isSet := true } := by
    unfold setImplicitly
    rw [if_pos (by simp [hb, typeNameOf])]
    rw [show valueSet f.value ("true".toList) = .ok (.bool true) from by
      rw [hb]; cases b <;> decide]
  rw [himp]

theorem parseOneResolved_explicit_next (al : List (List Char × List Char))
    (fl : List (List Char × FlagM)) (arg id w : List Char)
    (f : FlagM)
    (hne : id ≠ []) (hnd : listStartsWith id ("-".toList) = false)
    (hnh : id ≠ "h".toList) (hnhelp : id ≠ "help".toList)
    (hf : List.lookup (resolveName al id) fl = some f)
    (hex : flagExpectsExplicit f = true)
    (hw : listStartsWith w ("-".toList) = false) :
    parseOneResolved al fl arg id none (some w) =
      (match setValueFromString f w with
       | .error e => .error (wrapFlagError f none e)
       | .ok f1 => .ok (.processed (updateFlag fl (resolveName al id) f1) true)) := by
  obtain ⟨h1, h2⟩ := parseOneResolved_hyps_aux hne hnd hnh hnhelp
  unfold parseOneResolved
  rw [if_neg h1, if_neg h2]
  dsimp only
  rw [hf]
  simp only [hex, if_true]
  rw [if_neg (by rw [hw]; simp)]

theorem parseOneResolved_requires_value (al : List (List Char × List Char))
    (fl : List (List Char × FlagM)) (arg id : List Char)
    (peek : Option (List Char)) (f : FlagM)
    (hne : id ≠ []) (hnd : listStartsWith id ("-".toList) = false)
    (hnh : id ≠ "h".toList) (hnhelp : id ≠ "help".toList)
    (hf : List.lookup (resolveName al id) fl = some f)
    (hex : flagExpectsExplicit f = true)
    (hpk : peek = none ∨ ∃ w, peek = some w ∧ listStartsWith w ("-".toList) = true) :
    parseOneResolved al fl arg id none peek =
      .error (wrapFlagError f none
        (mkParseErr ("requires a value".toList) (some f.name) none)) := by
  obtain ⟨h1, h2⟩ := parseOneResolved_hyps_aux hne hnd hnh hnhelp
  unfold parseOneResolved
  rw [if_neg h1, if_neg h2]
  dsimp only
  rw [hf]
  simp only [hex, if_true]
  rcases hpk with h | ⟨w, hw, hdash⟩
  · rw [h]
  · rw [hw]
    dsimp only
    rw [if_pos hdash]

/-- C3, counterexample: with boolean `verbose` declared, parsing
`["--verbose", "false"]` leaves `verbose = true`: the boolean flag never
consumes the following token `"false"` as its value (parsing simply stops at
the non-flag token), contradicting the claim that a following token is
honored as the boolean's value. -/
theorem c3_counterexample :
    (parseFS vcFS ["--verbose".toList, "false".toList]).1 = .completed ∧
    (List.lookup ("verbose".toList)
        (parseFS vcFS ["--verbose".toList, "false".toList]).2.flags).map FlagM.value =
      some (.bool true) ∧
    FlagVal.bool true ≠ FlagVal.bool false := by
  refine ⟨by decide, by decide, by decide⟩

/-- C3 (amended): for every boolean flag, a bare flag token (no inline
`=value`) sets the flag to true via the implicit application, and an inline
`=value` is honored through the boolean's `set`; in both cases the token
after the flag is never consumed as the boolean's value (the `tookNext`
component is `false`, whatever the following token is). -/
theorem c3_boolean_token_semantics (al : List (List Char × List Char))
    (fl : List (List Char × FlagM)) (id : List Char) (f : FlagM) (b : Bool)
    (hne : id ≠ []) (hnd : listStartsWith id ("-".toList) = false)
    (hnoeq : '=' ∉ id) (hnh : id ≠ "h".toList) (hnhelp : id ≠ "help".toList)
    (hf : List.lookup (resolveName al id) fl = some f)
    (hb : f.value = .bool b) :
    (∀ peek, parseOne al fl ('-' :: '-' :: id) peek =
      .ok (.processed (updateFlag fl (resolveName al id)
        { f with value := .bool true, isSet := true }) false)) ∧
    (∀ v peek, parseOne al fl ('-' :: '-' :: (id ++ '=' :: v)) peek =
      (match setValueFromString f v with
       | .error e => .error (wrapFlagError f (some v) e)
       | .ok f1 => .ok (.processed (updateFlag fl (resolveName al id) f1) false))) := by
  constructor
  · intro peek
    rw [parseOne_long al fl id peek hne, splitEq_no_eq hnoeq]
    exact parseOneResolved_bool_bare al fl _ id peek f b hne hnd hnh hnhelp hf hb
  · intro v peek
    rw [parseOne_long al fl (id ++ '=' :: v) peek (by simp), splitEq_with_eq v hnoeq]
    exact parseOneResolved_inline al fl _ id v peek f hne hnd hnh hnhelp hf

/-- Witness for C3: the `verbose` flag of the concrete registry, with the
token `"false"` queued right after `--verbose`, is set to true and the
following token is not consumed. -/
theorem c3_witness :
    parseOne vcFS.aliases vcFS.flags ("--verbose".toList) (some ("false".toList)) =
      .ok (.processed (updateFlag vcFS.flags ("verbose".toList)
        ⟨"verbose".toList, [], some ("v".toList), .bool true, "false".toList, true⟩)
        false) :=
  (c3_boolean_token_semantics vcFS.aliases vcFS.flags ("verbose".toList)
    ⟨"verbose".toList, [], some ("v".toList), .bool false, "false".toList, false⟩ false
    (by decide) (by decide) (by decide) (by decide) (by decide) (by decide)
    rfl).1 (some ("false".toList))

/-- C6 (confirmed): for a flag requiring an explicit value — (a) an inline
`=value` is applied and the following token is left unconsumed (`tookNext`
is `false`, whatever is queued next); (b) without an inline value the next
queued token is consumed as the value exactly when it exists and does not
start with `-`; (c) when the next token is absent or starts with `-`, the
step fails with the "requires a value" error; (d) that error names the flag. -/
theorem c6_explicit_value_acquisition (al : List (List Char × List Char))
    (fl : List (List Char × FlagM)) (id : List Char) (f : FlagM)
    (hne : id ≠ []) (hnd : listStartsWith id ("-".toList) = false)
    (hnoeq : '=' ∉ id) (hnh : id ≠ "h".toList) (hnhelp : id ≠ "help".toList)
    (hf : List.lookup (resolveName al id) fl = some f)
    (hex : flagExpectsExplicit f = true) :
    (∀ v peek, parseOne al fl ('-' :: '-' :: (id ++ '=' :: v)) peek =
      (match setValueFromString f v with
       | .error e => .error (wrapFlagError f (some v) e)
       | .ok f1 => .ok (.processed (updateFlag fl (resolveName al id) f1) false))) ∧
    (∀ w, listStartsWith w ("-".toList) = false →
      parseOne al fl ('-' :: '-' :: id) (some w) =
        (match setValueFromString f w with
         | .error e => .error (wrapFlagError f none e)
         | .ok f1 => .ok (.processed (updateFlag fl (resolveName al id) f1) true))) ∧
    (∀ peek, (peek = none ∨ ∃ w, peek = some w ∧ listStartsWith w ("-".toList) = true) →
      parseOne al fl ('-' :: '-' :: id) peek =
        .error (wrapFlagError f none
          (mkParseErr ("requires a value".toList) (some f.name) none))) ∧
    errFlagName (wrapFlagError f none
      (mkParseErr ("requires a value".toList) (some f.name) none)) = some f.name := by
  refine ⟨?_, ?_, ?_, rfl⟩
  · intro v peek
    rw [parseOne_long al fl (id ++ '=' :: v) peek (by simp), splitEq_with_eq v hnoeq]
    exact parseOneResolved_inline al fl _ id v peek f hne hnd hnh hnhelp hf
  · intro w hw
    rw [parseOne_long al fl id (some w) hne, splitEq_no_eq hnoeq]
    exact parseOneResolved_explicit_next al fl _ id w f hne hnd hnh hnhelp hf hex hw
  · intro peek hpk
    rw [parseOne_long al fl id peek hne, splitEq_no_eq hnoeq]
    exact parseOneResolved_requires_value al fl _ id peek f hne hnd hnh hnhelp hf hex hpk

/-- Witness for C6: on the concrete `port` registry, `--port=8080` with
`9090` queued applies `8080` without consuming `9090`, and a bare `--port`
with nothing queued fails with the "requires a value" error naming `port`. -/
theorem c6_witness :
    parseOne portFS.aliases portFS.flags ("--port=8080".toList) (some ("9090".toList)) =
      .ok (.processed (updateFlag portFS.flags ("port".toList)
        ⟨"port".toList, [], some ("p".toList), .num (.fin 8080 0), "0".toList, true⟩)
        false) ∧
    parseOne portFS.aliases portFS.flags ("--port".toList) none =
      .error (wrapFlagError
        ⟨"port".toList, [], some ("p".toList), .num (.fin 0 0), "0".toList, false⟩ none
        (mkParseErr ("requires a value".toList) (some ("port".toList)) none)) := by
  have h := c6_explicit_value_acquisition portFS.aliases portFS.flags ("port".toList)
    ⟨"port".toList, [], some ("p".toList), .num (.fin 0 0), "0".toList, false⟩
    (by decide) (by decide) (by decide) (by decide) (by decide) (by decide) rfl
  exact ⟨h.1 ("8080".toList) (some ("9090".toList)), h.2.2.1 none (Or.inl rfl)⟩

theorem parseOneResolved_help (al : List (List Char × List Char))
    (fl : List (List Char × FlagM)) (arg id : List Char)
    (vOpt : Option (List Char)) (peek : Option (List Char))
    (hid : id = "h".toList ∨ id = "help".toList) :
    parseOneResolved al fl arg id vOpt peek = .error .helpRequest := by
  rcases hid with hid | hid <;> subst hid <;> unfold parseOneResolved <;>
    rw [if_neg (by decide), if_pos (by decide)]

/-- C10, counterexample: a registry declaring string `config` with alias `h`.
The help interception does keep `-h` from reaching it, but the flag is still
assigned by `parse` through its long name: `--config=x` completes and sets
it, refuting "such a declared flag is never assigned a value by parse". -/
theorem c10_counterexample :
    (List.lookup ("config".toList) aliasHFS.flags).map FlagM.aliasName =
      some (some ("h".toList)) ∧
    (parseFS aliasHFS ["--config=x".toList]).1 = .completed ∧
    (List.lookup ("config".toList)
        (parseFS aliasHFS ["--config=x".toList]).2.flags).map FlagM.value =
      some (.str ("x".toList)) ∧
    (List.lookup ("config".toList)
        (parseFS aliasHFS ["--config=x".toList]).2.flags).map FlagM.isSet =
      some true := by
  refine ⟨by decide, by decide, by decide, by decide⟩

/-- C10 (amended): help interception happens before flag resolution and before
value acquisition — for every registry (whatever flags or aliases it
declares), every flag-shaped token whose stripped identifier before the first
`=` is `h` or `help` (even with an inline `=value`) makes the parse step
raise the help signal with the flag map untouched, so no flag is ever
assigned through such a token.  A flag named `help`/`h` or aliased `h` can
still be assigned through a different name or alias form of its own, which is
what the counterexample exhibits. -/
theorem c10_help_interception (al : List (List Char × List Char))
    (fl : List (List Char × FlagM)) (t : List Char) (peek : Option (List Char))
    (hd1 : listStartsWith t ("-".toList) = true)
    (hd2 : t ≠ "-".toList) (hd3 : t ≠ "--".toList)
    (hid : stripIdOf t = "h".toList ∨ stripIdOf t = "help".toList) :
    parseOne al fl t peek = .error .helpRequest ∧
    (∀ rest, parseLoop al fl (t :: rest) = (some .helpRequest, fl)) := by
  have hstep : parseOne al fl t peek = .error .helpRequest := by
    unfold parseOne
    rw [if_neg hd3]
    rw [if_neg (by
      rintro (h | h)
      · rw [hd1] at h; exact h rfl
      · exact hd2 h)]
    exact parseOneResolved_help al fl t _ _ peek hid
  refine ⟨hstep, fun rest => ?_⟩
  have hstep2 : parseOne al fl t rest.head? = .error .helpRequest := by
    unfold parseOne
    rw [if_neg hd3]
    rw [if_neg (by
      rintro (h | h)
      · rw [hd1] at h; exact h rfl
      · exact hd2 h)]
    exact parseOneResolved_help al fl t _ _ rest.head? hid
  unfold parseLoop
  rw [hstep2]

/-- Witness for C10: on the registry that declares alias `h` for `config`,
the token `-h=5` (inline value and all) raises the help signal and leaves the
flag map untouched. -/
theorem c10_witness :
    parseOne aliasHFS.aliases aliasHFS.flags ("-h=5".toList) none =
      .error .helpRequest ∧
    parseLoop aliasHFS.aliases aliasHFS.flags ["-h=5".toList] =
      (some .helpRequest, aliasHFS.flags) := by
  have h := c10_help_interception aliasHFS.aliases aliasHFS.flags ("-h=5".toList) none
    (by decide) (by decide) (by decide) (Or.inl (by decide))
  exact ⟨h.1, h.2 []⟩

/-- C8 (confirmed): once the `--` token is consumed, flag interpretation
stops — the loop ends with the flag map exactly as it was, whatever tokens
follow, so no token after `--` is ever matched against a declared flag and
every flag not assigned before the `--` keeps its value.  Concretely, parsing
`["--verbose", "--", "--config", "x"]` leaves `verbose = true` and `config`
at its default `"d.json"` with `isSet` still false. -/
theorem c8_terminator_stops :
    (∀ (al : List (List Char × List Char)) (fl : List (List Char × FlagM))
        (post : List (List Char)),
      parseLoop al fl ("--".toList :: post) = (none, fl)) ∧
    (parseFS vcFS ["--verbose".toList, "--".toList, "--config".toList, "x".toList]).1 =
      .completed ∧
    (List.lookup ("verbose".toList)
        (parseFS vcFS ["--verbose".toList, "--".toList, "--config".toList,
          "x".toList]).2.flags).map FlagM.value = some (.bool true) ∧
    (List.lookup ("config".toList)
        (parseFS vcFS ["--verbose".toList, "--".toList, "--config".toList,
          "x".toList]).2.flags).map FlagM.value = some (.str ("d.json".toList)) ∧
    (List.lookup ("config".toList)
        (parseFS vcFS ["--verbose".toList, "--".toList, "--config".toList,
          "x".toList]).2.flags).map FlagM.isSet = some false := by
  refine ⟨?_, by decide, by decide, by decide, by decide⟩
  intro al fl post
  unfold parseLoop
  rw [show parseOne al fl ("--".toList) post.head? = .ok .terminator from by
    unfold parseOne
    rw [if_pos rfl]]

/-- C5, counterexample: `"1x"` is not a floating-point number literal, yet the
number setter accepts it (storing 1), because `parseFloat` only requires a
valid numeric prefix — so "fails exactly when the input is not a valid number
literal" is false as stated. -/
theorem c5_counterexample :
    specIsNumberLiteral ("1x".toList) = false ∧
    valueSet (.num (.fin 0 0)) ("1x".toList) = .ok (.num (.fin 1 0)) := by
  refine ⟨by decide, by decide⟩

/-- C5 (amended): the number setter fails exactly when `parseFloat` extracts
no number (the `NaN` outcome) — in particular on the literal `"NaN"`, which
`parseFloat` does not recognize — and otherwise stores the extracted value;
the failure carries the offending raw string, and through the parser the
error is rewrapped to also name the flag: parsing
`["--port", "not-a-number"]` fails with an error naming `port` with
offending value `"not-a-number"`. -/
theorem c5_number_set_semantics :
    (∀ (j : JsNum) (s : List Char),
      exceptIsOk (valueSet (.num j) s) = (parseFloat s).isSome) ∧
    (∀ (j : JsNum) (s : List Char) (r : JsNum), parseFloat s = some r →
      valueSet (.num j) s = .ok (.num r)) ∧
    (∀ (j : JsNum) (s : List Char), parseFloat s = none →
      valueSet (.num j) s =
        .error (mkParseErr ("invalid number".toList) none (some s))) ∧
    parseFloat ("NaN".toList) = none ∧
    (parseFS portFS ["--port".toList, "not-a-number".toList]).1 =
      .failed (mkParseErr
        (composeMsg ("invalid number".toList) none (some ("not-a-number".toList)))
        (some ("port".toList)) (some ("not-a-number".toList))) ∧
    errFlagName (mkParseErr
        (composeMsg ("invalid number".toList) none (some ("not-a-number".toList)))
        (some ("port".toList)) (some ("not-a-number".toList))) =
      some ("port".toList) ∧
    errOffendingValue (mkParseErr
        (composeMsg ("invalid number".toList) none (some ("not-a-number".toList)))
        (some ("port".toList)) (some ("not-a-number".toList))) =
      some ("not-a-number".toList) := by
  refine ⟨?_, ?_, ?_, by decide, by decide, by decide, by decide⟩
  · intro j s
    cases h : parseFloat s <;> simp [valueSet, h, exceptIsOk]
  · intro j s r h
    simp [valueSet, h]
  · intro j s h
    simp [valueSet, h]

/-- Witness for C5: concrete instances of the amended semantics — `"abc"`
fails (as `parseFloat` yields no number), `"8080"` stores 8080. -/
theorem c5_witness :
    exceptIsOk (valueSet (.num (.fin 0 0)) ("abc".toList)) =
      (parseFloat ("abc".toList)).isSome ∧
    valueSet (.num (.fin 0 0)) ("8080".toList) = .ok (.num (.fin 8080 0)) ∧
    valueSet (.num (.fin 0 0)) ("abc".toList) =
      .error (mkParseErr ("invalid number".toList) none (some ("abc".toList))) := by
  have h := c5_number_set_semantics
  exact ⟨h.1 (.fin 0 0) ("abc".toList),
    h.2.1 (.fin 0 0) ("8080".toList) (.fin 8080 0) (by decide),
    h.2.2.1 (.fin 0 0) ("abc".toList) (by decide)⟩

theorem resetFlags_ok {fl : List (List Char × FlagM)}
    (h : ∀ p ∈ fl, exceptIsOk (resetToDefault p.2) = true) :
    resetFlags fl = (none, fl.map fun p => (p.1, resetEntryTotal p.2)) := by
  induction fl with
  | nil => rfl
  | cons p rest ih =>
      obtain ⟨n, f⟩ := p
      have hf := h (n, f) (List.mem_cons_self _ _)
      cases hr : resetToDefault f with
      | error e => rw [hr] at hf; simp [exceptIsOk] at hf
      | ok f1 =>
          simp only [resetFlags, hr]
          rw [ih fun q hq => h q (List.mem_cons_of_mem _ hq)]
          simp [resetEntryTotal, hr]

/-- C2, counterexample: registry with string `s` at the factory default `""`.
A first parse assigns `"x"` and completes; a second parse of `[]` does invoke
the implicit reset, yet afterwards `s` still holds `"x"`, not its
constructor-time default `""` — the prior parse's value is observable even
though the new tokens never assigned it. -/
theorem c2_counterexample :
    (parseFS sEmptyFS ["--s".toList, "x".toList]).1 = .completed ∧
    ((parseFS sEmptyFS ["--s".toList, "x".toList]).2).isParsed = true ∧
    (List.lookup ("s".toList) sEmptyFS.flags).map FlagM.value = some (.str []) ∧
    (parseFS ((parseFS sEmptyFS ["--s".toList, "x".toList]).2) []).1 = .completed ∧
    (List.lookup ("s".toList)
        ((parseFS ((parseFS sEmptyFS ["--s".toList, "x".toList]).2) []).2).flags).map
      FlagM.value = some (.str ("x".toList)) ∧
    FlagVal.str ("x".toList) ≠ FlagVal.str [] := by
  refine ⟨by decide, by decide, by decide, by decide, by decide, by decide⟩

/-- C2 (amended): on a registry whose parse already completed or failed
(`isParsed = true`, with every flag's reset not throwing), a second `parse`
call first runs the full reset and then behaves exactly like a parse of the
reset registry: every flag is replaced by its reset image with `isSet`
cleared, and every flag whose captured default string still denotes its
constructor-time default — all of them except string flags with empty default
string — is restored to that default before the new tokens are consumed. -/
theorem c2_reparse_resets (S : FlagSetM) (ts : List (List Char))
    (hp : S.isParsed = true)
    (hok : ∀ p ∈ S.flags, exceptIsOk (resetToDefault p.2) = true) :
    ∃ S1, resetFS S = (none, S1) ∧
      parseFS S ts = parseFS S1 ts ∧
      S1.isParsed = false ∧
      S1.flags = S.flags.map (fun p => (p.1, resetEntryTotal p.2)) ∧
      (∀ p ∈ S.flags, ∀ v0, entrySpec p.2 v0 →
        resetEntryTotal p.2 = { p.2 with value := v0, isSet := false }) := by
  have hreset : resetFS S =
      (none, ⟨S.flags.map (fun p => (p.1, resetEntryTotal p.2)), S.aliases, false, []⟩) := by
    unfold resetFS
    rw [resetFlags_ok hok]
  refine ⟨⟨S.flags.map (fun p => (p.1, resetEntryTotal p.2)), S.aliases, false, []⟩,
    hreset, ?_, rfl, rfl, ?_⟩
  · unfold parseFS
    rw [if_pos hp, hreset]
    rw [if_neg (by simp)]
  · intro p hmem v0 hspec
    simp [resetEntryTotal, resetToDefault_ok hspec]

/-- Witness for C2: the two-flag registry marked as already parsed; the
second parse factors through the reset state, and the `config` flag (default
`"d.json"`) is restored. -/
theorem c2_witness :
    ∃ S1, resetFS { vcFS with isParsed := true } = (none, S1) ∧
      parseFS { vcFS with isParsed := true } ["--config=x.json".toList] =
        parseFS S1 ["--config=x.json".toList] ∧
      S1.isParsed = false ∧
      S1.flags = ({ vcFS with isParsed := true } : FlagSetM).flags.map
        (fun p => (p.1, resetEntryTotal p.2)) ∧
      (∀ p ∈ ({ vcFS with isParsed := true } : FlagSetM).flags, ∀ v0,
        entrySpec p.2 v0 →
          resetEntryTotal p.2 = { p.2 with value := v0, isSet := false }) :=
  c2_reparse_resets { vcFS with isParsed := true } ["--config=x.json".toList]
    (by decide) (by decide)

theorem parseOneResolved_peek_irrel (al : List (List Char × List Char))
    (fl : List (List Char × FlagM)) (arg id : List Char)
    (vOpt : Option (List Char)) {p : Option (List Char)}
    {fl1 : List (List Char × FlagM)} (p' : Option (List Char))
    (h : parseOneResolved al fl arg id vOpt p = .ok (.processed fl1 false)) :
    parseOneResolved al fl arg id vOpt p' = .ok (.processed fl1 false) := by
  unfold parseOneResolved at h ⊢
  by_cases hc1 : (id = [] ∨ listStartsWith id ("-".toList) = true)
  · rw [if_pos hc1] at h; cases h
  · rw [if_neg hc1] at h ⊢
    by_cases hc2 : (id = "h".toList ∨ id = "help".toList)
    · rw [if_pos hc2] at h; cases h
    · rw [if_neg hc2] at h ⊢
      dsimp only at h ⊢
      cases hlook : List.lookup (resolveName al id) fl with
      | none => rw [hlook] at h; cases h
      | some f =>
          rw [hlook] at h
          dsimp only at h ⊢
          cases hex : flagExpectsExplicit f with
          | false =>
              rw [hex] at h
              simp only [Bool.false_eq_true, if_false] at h
              simp only [Bool.false_eq_true, if_false]
              exact h
          | true =>
              rw [hex] at h
              simp only [if_true] at h
              simp only [if_true]
              cases vOpt with
              | some v => exact h
              | none =>
                  exfalso
                  cases p with
                  | none => dsimp only at h; cases h
                  | some nxt =>
                      dsimp only at h
                      by_cases hdash : listStartsWith nxt ("-".toList) = true
                      · rw [if_pos hdash] at h; cases h
                      · rw [if_neg hdash] at h
                        cases hsv : setValueFromString f nxt with
                        | error e2 => rw [hsv] at h; cases h
                        | ok f2 => rw [hsv] at h; simp at h

theorem parseOne_peek_irrel (al : List (List Char × List Char))
    (fl : List (List Char × FlagM)) (t : List Char) {p : Option (List Char)}
    {fl1 : List (List Char × FlagM)} (p' : Option (List Char))
    (h : parseOne al fl t p = .ok (.processed fl1 false)) :
    parseOne al fl t p' = .ok (.processed fl1 false) := by
  unfold parseOne at h ⊢
  by_cases h1 : t = "--".toList
  · rw [if_pos h1] at h; simp at h
  · rw [if_neg h1] at h ⊢
    by_cases h2 : (¬listStartsWith t ("-".toList) = true ∨ t = "-".toList)
    · rw [if_pos h2] at h; simp at h
    · rw [if_neg h2] at h ⊢
      dsimp only at h ⊢
      exact parseOneResolved_peek_irrel al fl t _ _ p' h

theorem parseLoop_abort_aux (al : List (List Char × List Char)) :
    ∀ (n : Nat) (ts : List (List Char)), ts.length ≤ n →
      ∀ (fl flE : List (List Char × FlagM)) (e : PError),
        parseLoop al fl ts = (some e, flE) →
        ∃ k tk rest1, ts.drop k = tk :: rest1 ∧
          parseLoop al fl (ts.take k) = (none, flE) ∧
          parseOne al flE tk rest1.head? = .error e := by
  intro n
  induction n with
  | zero =>
      intro ts hlen fl flE e h
      cases ts with
      | nil => cases h
      | cons t rest => simp at hlen
  | succ n ih =>
      intro ts hlen fl flE e h
      cases ts with
      | nil => cases h
      | cons t rest =>
          simp only [parseLoop] at h
          cases hstep : parseOne al fl t rest.head? with
          | error e2 =>
              rw [hstep] at h
              rw [Prod.mk.injEq] at h
              obtain ⟨h1, h2⟩ := h
              cases h1
              subst h2
              exact ⟨0, t, rest, rfl, rfl, hstep⟩
          | ok out =>
              rw [hstep] at h
              cases out with
              | terminator => cases h
              | notAFlag => cases h
              | processed fl1 took =>
                  cases took with
                  | false =>
                      simp only [Bool.false_eq_true, if_false] at h
                      obtain ⟨k, tk, rest1, hdrop, hpre, hfail⟩ :=
                        ih rest (by simp at hlen; omega) fl1 flE e h
                      refine ⟨k + 1, tk, rest1, by simpa using hdrop, ?_, hfail⟩
                      rw [List.take_succ_cons]
                      simp only [parseLoop]
                      rw [parseOne_peek_irrel al fl t ((rest.take k).head?) hstep]
                      simpa using hpre
                  | true =>
                      simp only [if_true] at h
                      cases rest with
                      | nil => cases h
                      | cons r rest1 =>
                          obtain ⟨k, tk, rest2, hdrop, hpre, hfail⟩ :=
                            ih rest1 (by simp at hlen; omega) fl1 flE e h
                          refine ⟨k + 2, tk, rest2, by simpa using hdrop, ?_, hfail⟩
                          rw [show (k + 2) = (k + 1) + 1 from rfl, List.take_succ_cons,
                            List.take_succ_cons]
                          simp only [parseLoop]
                          rw [show ((r :: rest1.take k).head?) = (r :: rest1).head? from rfl]
                          rw [hstep]
                          simpa using hpre

/-- C7 (confirmed): when the token loop raises its first `ParseError` or the
help signal, the whole parse aborts at that point: there is a split of the
token sequence such that the successful prefix alone reproduces exactly the
final flag state (flags assigned by earlier tokens keep their newly assigned
values, with no rollback), and the very first token of the remainder is the
failing step — no later token is processed or assigns any flag. -/
theorem c7_abort_on_first_error (al : List (List Char × List Char))
    (fl flE : List (List Char × FlagM)) (ts : List (List Char)) (e : PError)
    (h : parseLoop al fl ts = (some e, flE)) :
    ∃ k tk rest1, ts.drop k = tk :: rest1 ∧
      parseLoop al fl (ts.take k) = (none, flE) ∧
      parseOne al flE tk rest1.head? = .error e :=
  parseLoop_abort_aux al ts.length ts le_rfl fl flE e h

/-- Witness for C7: on the `port` registry, `["--port", "1", "--port"]` fails
at the trailing `--port` (missing value); the prefix `["--port", "1"]` alone
yields the final flag state, with `port = 1` kept. -/
theorem c7_witness :
    ∃ k tk rest1,
      (["--port".toList, "1".toList, "--port".toList] : List (List Char)).drop k =
        tk :: rest1 ∧
      parseLoop portFS.aliases portFS.flags
        ((["--port".toList, "1".toList, "--port".toList] : List (List Char)).take k) =
        (none, (parseLoop portFS.aliases portFS.flags
          ["--port".toList, "1".toList, "--port".toList]).2) ∧
      parseOne portFS.aliases (parseLoop portFS.aliases portFS.flags
          ["--port".toList, "1".toList, "--port".toList]).2 tk rest1.head? =
        .error (wrapFlagError
          ⟨"port".toList, [], some ("p".toList), .num (.fin 1 0), "0".toList, true⟩ none
          (mkParseErr ("requires a value".toList) (some ("port".toList)) none)) :=
  c7_abort_on_first_error portFS.aliases portFS.flags _
    ["--port".toList, "1".toList, "--port".toList] _ (by decide)

theorem substTok_preserves_dash (a n t : List Char) :
    listStartsWith (substTok a n t) ("-".toList) = listStartsWith t ("-".toList) := by
  unfold substTok
  split
  · rename_i heq
    rw [heq]
    rw [show ("-".toList) = ['-'] from rfl]
    simp [listStartsWith]
  · rfl

theorem substTok_nondash_id {a n t : List Char}
    (h : listStartsWith t ("-".toList) = false) : substTok a n t = t := by
  unfold substTok
  rw [if_neg]
  intro heq
  rw [heq] at h
  rw [show ("-".toList) = ['-'] from rfl] at h
  simp [listStartsWith] at h

theorem updateFlag_lookup_isSome (fl : List (List Char × FlagM)) (key : List Char)
    (f1 : FlagM) (nm : List Char) :
    (List.lookup nm (updateFlag fl key f1)).isSome = (List.lookup nm fl).isSome := by
  induction fl with
  | nil => rfl
  | cons p rest ih =>
      obtain ⟨k1, v1⟩ := p
      simp only [updateFlag, List.map_cons]
      by_cases hk : k1 = key
      · rw [if_pos hk]
        simp only [List.lookup]
        by_cases hnm : nm = k1
        · rw [show (nm == k1) = true from by simp [hnm]]
          rfl
        · rw [show (nm == k1) = false from by simp [hnm]]
          simpa [updateFlag] using ih
      · rw [if_neg hk]
        simp only [List.lookup]
        by_cases hnm : nm = k1
        · rw [show (nm == k1) = true from by simp [hnm]]
        · rw [show (nm == k1) = false from by simp [hnm]]
          simpa [updateFlag] using ih

theorem resetFlags_fst (fl : List (List Char × FlagM)) :
    ((resetFlags fl).2).map Prod.fst = fl.map Prod.fst := by
  induction fl with
  | nil => rfl
  | cons p rest ih =>
      obtain ⟨k1, v1⟩ := p
      cases hr : resetToDefault v1 with
      | error e => simp [resetFlags, hr]
      | ok f1 => simp [resetFlags, hr, ih]

theorem lookup_isSome_congr {β : Type} (x : List Char) :
    ∀ (l l2 : List (List Char × β)),
      l.map Prod.fst = l2.map Prod.fst →
      (List.lookup x l).isSome = (List.lookup x l2).isSome := by
  intro l
  induction l with
  | nil =>
      intro l2 h
      cases l2 with
      | nil => rfl
      | cons q r => simp at h
  | cons p rest ih =>
      intro l2 h
      cases l2 with
      | nil => simp at h
      | cons q r =>
          obtain ⟨k1, v1⟩ := p
          obtain ⟨k2, v2⟩ := q
          simp only [List.map_cons, List.cons.injEq] at h
          obtain ⟨hk, hr⟩ := h
          subst hk
          simp only [List.lookup]
          by_cases hx : x = k1
          · rw [show (x == k1) = true from by simp [hx]]
            rfl
          · rw [show (x == k1) = false from by simp [hx]]
            exact ih r hr

theorem expectsExplicit_false_bool {f : FlagM} (h : flagExpectsExplicit f = false) :
    ∃ b, f.value = .bool b := by
  cases hv : f.value with
  | bool b => exact ⟨b, rfl⟩
  | str s => unfold flagExpectsExplicit at h; rw [hv] at h; simp [valExpectsExplicit] at h
  | num j => unfold flagExpectsExplicit at h; rw [hv] at h; simp [valExpectsExplicit] at h
  | strList c d =>
      unfold flagExpectsExplicit at h; rw [hv] at h; simp [valExpectsExplicit] at h

theorem parseOneResolved_processed_shape {al : List (List Char × List Char)}
    {fl : List (List Char × FlagM)} {arg id : List Char} {vOpt : Option (List Char)}
    {p : Option (List Char)} {fl1 : List (List Char × FlagM)} {took : Bool}
    (h : parseOneResolved al fl arg id vOpt p = .ok (.processed fl1 took)) :
    ∃ key fnew, fl1 = updateFlag fl key fnew := by
  unfold parseOneResolved at h
  by_cases hc1 : (id = [] ∨ listStartsWith id ("-".toList) = true)
  · rw [if_pos hc1] at h; cases h
  · rw [if_neg hc1] at h
    by_cases hc2 : (id = "h".toList ∨ id = "help".toList)
    · rw [if_pos hc2] at h; cases h
    · rw [if_neg hc2] at h
      dsimp only at h
      cases hlook : List.lookup (resolveName al id) fl with
      | none => rw [hlook] at h; cases h
      | some f =>
          rw [hlook] at h
          dsimp only at h
          cases hex : flagExpectsExplicit f with
          | true =>
              rw [hex] at h
              simp only [if_true] at h
              cases vOpt with
              | some v =>
                  dsimp only at h
                  cases hsv : setValueFromString f v with
                  | error e => rw [hsv] at h; cases h
                  | ok f2 => rw [hsv] at h; cases h; exact ⟨_, _, rfl⟩
              | none =>
                  cases p with
                  | none => dsimp only at h; cases h
                  | some nxt =>
                      dsimp only at h
                      by_cases hdash : listStartsWith nxt ("-".toList) = true
                      · rw [if_pos hdash] at h; cases h
                      · rw [if_neg hdash] at h
                        cases hsv : setValueFromString f nxt with
                        | error e => rw [hsv] at h; cases h
                        | ok f2 => rw [hsv] at h; cases h; exact ⟨_, _, rfl⟩
          | false =>
              rw [hex] at h
              simp only [Bool.false_eq_true, if_false] at h
              cases vOpt with
              | some v =>
                  dsimp only at h
                  cases hsv : setValueFromString f v with
                  | error e => rw [hsv] at h; cases h
                  | ok f2 => rw [hsv] at h; cases h; exact ⟨_, _, rfl⟩
              | none =>
                  cases hsv : setImplicitly f with
                  | error e => dsimp only at h; rw [hsv] at h; cases h
                  | ok f2 => dsimp only at h; rw [hsv] at h; cases h; exact ⟨_, _, rfl⟩

theorem parseOne_processed_shape {al : List (List Char × List Char)}
    {fl : List (List Char × FlagM)} {t : List Char} {p : Option (List Char)}
    {fl1 : List (List Char × FlagM)} {took : Bool}
    (h : parseOne al fl t p = .ok (.processed fl1 took)) :
    ∃ key fnew, fl1 = updateFlag fl key fnew := by
  unfold parseOne at h
  by_cases h1 : t = "--".toList
  · rw [if_pos h1] at h; simp at h
  · rw [if_neg h1] at h
    by_cases h2 : (¬listStartsWith t ("-".toList) = true ∨ t = "-".toList)
    · rw [if_pos h2] at h; simp at h
    · rw [if_neg h2] at h
      dsimp only at h
      exact parseOneResolved_processed_shape h

theorem parseOne_keys {al : List (List Char × List Char)}
    {fl : List (List Char × FlagM)} {t : List Char} {p : Option (List Char)}
    {fl1 : List (List Char × FlagM)} {took : Bool}
    (h : parseOne al fl t p = .ok (.processed fl1 took)) (nm : List Char) :
    (List.lookup nm fl1).isSome = (List.lookup nm fl).isSome := by
  obtain ⟨key, fnew, rfl⟩ := parseOne_processed_shape h
  exact updateFlag_lookup_isSome fl key fnew nm

theorem parseOneResolved_peek_congr (al : List (List Char × List Char))
    (fl : List (List Char × FlagM)) (arg id : List Char) (vOpt : Option (List Char))
    (p p' : Option (List Char))
    (hrel : (p = none ∧ p' = none) ∨ (∃ w w', p = some w ∧ p' = some w' ∧
      listStartsWith w ("-".toList) = listStartsWith w' ("-".toList) ∧
      (listStartsWith w ("-".toList) = false → w = w'))) :
    parseOneResolved al fl arg id vOpt p = parseOneResolved al fl arg id vOpt p' := by
  rcases hrel with ⟨hp, hp'⟩ | ⟨w, w', hp, hp', hdash, heqw⟩
  · subst hp; subst hp'; rfl
  · subst hp; subst hp'
    by_cases hd : listStartsWith w ("-".toList) = true
    · have hd' : listStartsWith w' ("-".toList) = true := by rw [← hdash]; exact hd
      unfold parseOneResolved
      by_cases hc1 : (id = [] ∨ listStartsWith id ("-".toList) = true)
      · rw [if_pos hc1, if_pos hc1]
      · rw [if_neg hc1, if_neg hc1]
        by_cases hc2 : (id = "h".toList ∨ id = "help".toList)
        · rw [if_pos hc2, if_pos hc2]
        · rw [if_neg hc2, if_neg hc2]
          dsimp only
          cases List.lookup (resolveName al id) fl with
          | none => rfl
          | some f =>
              cases hex : flagExpectsExplicit f with
              | false => simp only [hex, Bool.false_eq_true, if_false]
              | true =>
                  simp only [hex, if_true]
                  cases vOpt with
                  | some v => rfl
                  | none =>
                      dsimp only
                      rw [if_pos hd, if_pos hd']
    · have hw : w = w' := heqw (by
        cases hb : listStartsWith w ("-".toList)
        · rfl
        · exact absurd hb hd)
      subst hw
      rfl

theorem parseOne_peek_congr (al : List (List Char × List Char))
    (fl : List (List Char × FlagM)) (t : List Char)
    (p p' : Option (List Char))
    (hrel : (p = none ∧ p' = none) ∨ (∃ w w', p = some w ∧ p' = some w' ∧
      listStartsWith w ("-".toList) = listStartsWith w' ("-".toList) ∧
      (listStartsWith w ("-".toList) = false → w = w'))) :
    parseOne al fl t p = parseOne al fl t p' := by
  unfold parseOne
  by_cases h1 : t = "--".toList
  · rw [if_pos h1, if_pos h1]
  · rw [if_neg h1, if_neg h1]
    by_cases h2 : (¬listStartsWith t ("-".toList) = true ∨ t = "-".toList)
    · rw [if_pos h2, if_pos h2]
    · rw [if_neg h2, if_neg h2]
      dsimp only
      exact parseOneResolved_peek_congr al fl t _ _ p p' hrel

theorem parseOne_subst (al : List (List Char × List Char)) (fl : List (List Char × FlagM))
    (a n : List Char)
    (h1 : List.lookup a al = some n) (h2 : List.lookup n al = none)
    (h3 : n ≠ []) (h4 : listStartsWith n ("-".toList) = false) (h5 : '=' ∉ n)
    (h6n : n ≠ "h".toList) (h6p : n ≠ "help".toList)
    (h7a : a ≠ []) (h7d : listStartsWith a ("-".toList) = false) (h7e : '=' ∉ a)
    (h7h : a ≠ "h".toList) (h7p : a ≠ "help".toList)
    (h8 : (List.lookup n fl).isSome = true)
    (t : List Char) (p : Option (List Char)) :
    parseOne al fl (substTok a n t) (p.map (substTok a n)) = parseOne al fl t p := by
  have hrel : (p.map (substTok a n) = none ∧ p = none) ∨
      (∃ w w', p.map (substTok a n) = some w ∧ p = some w' ∧
        listStartsWith w ("-".toList) = listStartsWith w' ("-".toList) ∧
        (listStartsWith w ("-".toList) = false → w = w')) := by
    cases p with
    | none => exact Or.inl ⟨rfl, rfl⟩
    | some w =>
        refine Or.inr ⟨substTok a n w, w, by simp, rfl, substTok_preserves_dash a n w, ?_⟩
        intro hnd
        have hw : listStartsWith w ("-".toList) = false := by
          rw [← substTok_preserves_dash a n w]
          exact hnd
        rw [substTok_nondash_id hw]
  by_cases ht : t = '-' :: a
  · subst ht
    rw [show substTok a n ('-' :: a) = '-' :: '-' :: n from by
      unfold substTok; rw [if_pos rfl]]
    rw [parseOne_long al fl n _ h3, splitEq_no_eq h5]
    rw [parseOne_short al fl a _ h7a h7d, splitEq_no_eq h7e]
    dsimp only
    have hresn : resolveName al n = n := by unfold resolveName; rw [h2]
    have hresa : resolveName al a = n := by
      unfold resolveName
      rw [h1]
      dsimp only
      rw [if_neg h3]
    obtain ⟨f, hf⟩ := Option.isSome_iff_exists.mp h8
    have hfn : List.lookup (resolveName al n) fl = some f := by rw [hresn]; exact hf
    have hfa : List.lookup (resolveName al a) fl = some f := by rw [hresa]; exact hf
    cases hex : flagExpectsExplicit f with
    | false =>
        obtain ⟨b, hb⟩ := expectsExplicit_false_bool hex
        rw [parseOneResolved_bool_bare al fl _ n _ f b h3 h4 h6n h6p hfn hb]
        rw [parseOneResolved_bool_bare al fl _ a _ f b h7a h7d h7h h7p hfa hb]
        rw [hresn, hresa]
    | true =>
        cases p with
        | none =>
            rw [show Option.map (substTok a n) (none : Option (List Char)) = none from rfl]
            rw [parseOneResolved_requires_value al fl _ n none f h3 h4 h6n h6p hfn hex
              (Or.inl rfl)]
            rw [parseOneResolved_requires_value al fl _ a none f h7a h7d h7h h7p hfa hex
              (Or.inl rfl)]
        | some w =>
            by_cases hdw : listStartsWith w ("-".toList) = true
            · have hdsw : listStartsWith (substTok a n w) ("-".toList) = true := by
                rw [substTok_preserves_dash]; exact hdw
              rw [show Option.map (substTok a n) (some w) = some (substTok a n w) from by
                simp]
              rw [parseOneResolved_requires_value al fl _ n _ f h3 h4 h6n h6p hfn hex
                (Or.inr ⟨_, rfl, hdsw⟩)]
              rw [parseOneResolved_requires_value al fl _ a _ f h7a h7d h7h h7p hfa hex
                (Or.inr ⟨_, rfl, hdw⟩)]
            · have hnd : listStartsWith w ("-".toList) = false := by
                cases hb2 : listStartsWith w ("-".toList) with
                | false => rfl
                | true => exact absurd hb2 hdw
              have hsub : substTok a n w = w := substTok_nondash_id hnd
              rw [show Option.map (substTok a n) (some w) = some w from by simp [hsub]]
              rw [parseOneResolved_explicit_next al fl _ n w f h3 h4 h6n h6p hfn hex hnd]
              rw [parseOneResolved_explicit_next al fl _ a w f h7a h7d h7h h7p hfa hex hnd]
              rw [hresn, hresa]
  · rw [show substTok a n t = t from by unfold substTok; rw [if_neg ht]]
    exact parseOne_peek_congr al fl t _ p hrel

theorem parseLoop_subst_aux (al : List (List Char × List Char)) (a n : List Char)
    (h1 : List.lookup a al = some n) (h2 : List.lookup n al = none)
    (h3 : n ≠ []) (h4 : listStartsWith n ("-".toList) = false) (h5 : '=' ∉ n)
    (h6n : n ≠ "h".toList) (h6p : n ≠ "help".toList)
    (h7a : a ≠ []) (h7d : listStartsWith a ("-".toList) = false) (h7e : '=' ∉ a)
    (h7h : a ≠ "h".toList) (h7p : a ≠ "help".toList) :
    ∀ (m : Nat) (ts : List (List Char)), ts.length ≤ m →
      ∀ fl, (List.lookup n fl).isSome = true →
        parseLoop al fl (ts.map (substTok a n)) = parseLoop al fl ts := by
  intro m
  induction m with
  | zero =>
      intro ts hlen fl h8
      cases ts with
      | nil => rfl
      | cons t r => simp at hlen
  | succ m ih =>
      intro ts hlen fl h8
      cases ts with
      | nil => rfl
      | cons t rest =>
          simp only [List.map_cons, parseLoop]
          have hhead : (rest.map (substTok a n)).head? = rest.head?.map (substTok a n) := by
            cases rest <;> rfl
          rw [hhead]
          rw [parseOne_subst al fl a n h1 h2 h3 h4 h5 h6n h6p h7a h7d h7e h7h h7p h8
            t rest.head?]
          cases hres : parseOne al fl t rest.head? with
          | error e => rfl
          | ok out =>
              cases out with
              | terminator => rfl
              | notAFlag => rfl
              | processed fl1 took =>
                  have h8' : (List.lookup n fl1).isSome = true := by
                    rw [parseOne_keys hres n]; exact h8
                  cases took with
                  | false =>
                      simp only [Bool.false_eq_true, if_false]
                      exact ih rest (by simp at hlen; omega) fl1 h8'
                  | true =>
                      simp only [if_true]
                      cases rest with
                      | nil => rfl
                      | cons r rest1 =>
                          simp only [List.map_cons]
                          exact ih rest1 (by simp at hlen; omega) fl1 h8'

theorem resetFS_aliases (S : FlagSetM) : (resetFS S).2.aliases = S.aliases := by
  unfold resetFS
  rcases resetFlags S.flags with ⟨oe, fl2⟩
  cases oe <;> rfl

theorem resetFS_flags_fst (S : FlagSetM) :
    ((resetFS S).2.flags).map Prod.fst = S.flags.map Prod.fst := by
  have hfst := resetFlags_fst S.flags
  unfold resetFS
  rcases hq : resetFlags S.flags with ⟨oe, fl2⟩
  rw [hq] at hfst
  cases oe <;> simpa using hfst

/-- C9 (confirmed): an alias and its canonical long name resolve to the
identical flag during parse — for a well-formed registry binding alias `a` to
flag name `n` (the alias maps to `n`, `n` is itself neither an alias key nor
help-reserved nor dash/equals-shaped, and a flag named `n` exists), replacing
every `-a` token by `--n` in any token sequence produces exactly the same
`parse` result and post-parse registry state. -/
theorem c9_alias_equivalence (S : FlagSetM) (a n : List Char) (ts : List (List Char))
    (h1 : List.lookup a S.aliases = some n) (h2 : List.lookup n S.aliases = none)
    (h3 : n ≠ []) (h4 : listStartsWith n ("-".toList) = false) (h5 : '=' ∉ n)
    (h6n : n ≠ "h".toList) (h6p : n ≠ "help".toList)
    (h7a : a ≠ []) (h7d : listStartsWith a ("-".toList) = false) (h7e : '=' ∉ a)
    (h7h : a ≠ "h".toList) (h7p : a ≠ "help".toList)
    (h8 : (List.lookup n S.flags).isSome = true) :
    parseFS S (ts.map (substTok a n)) = parseFS S ts := by
  unfold parseFS
  by_cases hp : S.isParsed
  · rw [if_pos hp]
    have ha : (resetFS S).2.aliases = S.aliases := resetFS_aliases S
    have h8' : (List.lookup n (resetFS S).2.flags).isSome = true := by
      rw [lookup_isSome_congr n (resetFS S).2.flags S.flags (resetFS_flags_fst S)]
      exact h8
    rcases hres : resetFS S with ⟨oe, S1⟩
    rw [hres] at ha h8'
    cases oe with
    | some e => rfl
    | none =>
        dsimp only
        rw [ha]
        rw [parseLoop_subst_aux S.aliases a n h1 h2 h3 h4 h5 h6n h6p h7a h7d h7e h7h h7p
          ts.length ts le_rfl S1.flags h8']
  · rw [if_neg hp]
    dsimp only
    rw [parseLoop_subst_aux S.aliases a n h1 h2 h3 h4 h5 h6n h6p h7a h7d h7e h7h h7p
      ts.length ts le_rfl S.flags h8]

/-- Witness for C9: on the concrete registry, `["--verbose", "-c",
"user.json"]` (the alias token `-v` replaced by its long form) parses to
exactly the same result and state as `["-v", "-c", "user.json"]`. -/
theorem c9_witness :
    parseFS vcFS ["--verbose".toList, "-c".toList, "user.json".toList] =
      parseFS vcFS ["-v".toList, "-c".toList, "user.json".toList] :=
  c9_alias_equivalence vcFS ("v".toList) ("verbose".toList)
    ["-v".toList, "-c".toList, "user.json".toList]
    (by decide) (by decide) (by decide) (by decide) (by decide) (by decide) (by decide)
    (by decide) (by decide) (by decide) (by decide) (by decide) (by decide)
